import Mathlib

/-!
# Flow counting nodes of custom-vpp: `flowcounter` and `ratelimiter`

Shallow embedding of

* `src/plugins/flowcounter/node.c`  (`get_hash_key`, `flowcounter_node`),
* `src/plugins/ratelimiter/node.c`  (`get_hash_key`, `ratelimiter_node`),

together with a model of the per-core flow table (`clib_bihash_16_8_t`) they call into.

Conventions.  Machine integers are `Nat`; a C operation that can wrap carries an explicit
`% 2 ^ w`.  A read of `from[i]` or `per_cpu[i]` outside the vector, and a `-=` that would wrap
below zero, make the embedded function return `Except.error`.  The `while` loops are driven by
a fuel argument; running out of fuel is a separate error.
-/

namespace CustomVpp

/-! ## Data model -/

/-- The `clib_bihash_kv_16_8_t` record: `u64 key[2]` (kept as a pair) and `u64 value`. -/
structure clib_bihash_kv_16_8_t where
  key : Nat × Nat
  value : Nat
deriving DecidableEq

/-- Modelled from the spec: the per-core FlowTable (vppinfra `bihash_16_8`, whose code is not
among the sources).  The spec gives it a name, a power-of-two number of buckets and a memory
budget fixed at initialisation; a key hashes to one bucket, whose slots are scanned.
`memory_used` is the part of the budget taken by the records inserted so far. -/
structure clib_bihash_16_8_t where
  name : String
  nbuckets : Nat
  memory_size : Nat
  memory_used : Nat
  buckets : Nat → List clib_bihash_kv_16_8_t

/-- The `fc_per_cpu_t` entry of `sourcecounter.h` (the other plugins declare the same). -/
structure fc_per_cpu_t where
  hash_table : clib_bihash_16_8_t

/-- The Ethernet header: `u8 dst_address[6]`, `u8 src_address[6]`, `u16 type`. -/
structure ethernet_header_t where
  dst_address : List Nat
  src_address : List Nat
  type : Nat
deriving DecidableEq

/-- The IPv4 header, field by field, each as loaded from the packet. -/
structure ip4_header_t where
  ip_version_and_header_length : Nat
  tos : Nat
  length : Nat
  fragment_id : Nat
  flags_and_fragment_offset : Nat
  ttl : Nat
  protocol : Nat
  checksum : Nat
  src_address : Nat
  dst_address : Nat
deriving DecidableEq

/-- The UDP header that `get_hash_key` reads at `ip4 + 1`. -/
structure udp_header_t where
  src_port : Nat
  dst_port : Nat
  length : Nat
  checksum : Nat
deriving DecidableEq

/-- The part of a `vlib_buffer_t` the nodes touch: the trace flag, the two interface fields
`vnet_buffer (b)->sw_if_index[VLIB_RX]` and `[VLIB_TX]`, and the packet data at
`vlib_buffer_get_current`, which is an Ethernet header followed by `en + 1` (IPv4) and
`ip4 + 1` (UDP). -/
structure vlib_buffer_t where
  is_traced : Bool
  sw_if_index_RX : Nat
  sw_if_index_TX : Nat
  en : ethernet_header_t
  ip4 : ip4_header_t
  udp : udp_header_t
deriving DecidableEq

/-- The trace record `flowcounter_trace_t` / `ratelimiter_trace_t`. -/
structure node_trace_t where
  next_index : Nat
  sw_if_index : Nat
  new_src_mac : List Nat
  new_dst_mac : List Nat
  src_ip : Nat
  dst_ip : Nat
  src_port : Nat
  dst_port : Nat
deriving DecidableEq

/-- Ways in which a run of the embedded code can fail to produce a result. -/
inductive node_fault where
  | out_of_bounds
  | underflow
  | out_of_fuel
deriving DecidableEq

/-- What a node invocation is given besides the memory it works on.

* `hash` is `clib_bihash_hash_16_8`, a function of the two key words (not among the sources);
* `room k` is the `n_left_to_next` that the `k`-th call of `vlib_get_next_frame` delivers;
* `uninit i` is the indeterminate content that the local handed to the search as its result
  argument (`value` in the single-packet loops, `value0` / `value1` in the paired loop of
  `ratelimiter_node`) has when it is declared for the packet at position `i` of the frame;
* `thread_index` is `vm->thread_index`;
* `node_flag_trace` is `node->flags & VLIB_NODE_FLAG_TRACE`;
* `frame` is `vlib_frame_vector_args (frame)`, its length being `frame->n_vectors`. -/
structure node_env where
  hash : Nat × Nat → Nat
  room : Nat → Nat
  uninit : Nat → clib_bihash_kv_16_8_t
  thread_index : Nat
  node_flag_trace : Bool
  frame : List Nat

/-- The local variables of a node function together with the memory it reads and writes.

* `per_cpu` is `flowcounter_main.per_cpu` resp. `ratelimiter_main.per_cpu`;
* `buffers` is the buffer pool, indexed by buffer handle (`vlib_get_buffer`);
* `from_` is the offset of the pointer `from` into the frame;
* `to_next` lists the handles written through `to_next` so far;
* `frames` counts the calls of `vlib_get_next_frame`;
* `add_del_rv` logs the return values of the table insertions, which the source discards;
* `key0 … hash5` are the pipeline window of `ratelimiter_node`. -/
structure node_state where
  per_cpu : List fc_per_cpu_t
  buffers : Nat → vlib_buffer_t
  from_ : Nat
  n_left_from : Nat
  to_next : List Nat
  n_left_to_next : Nat
  frames : Nat
  pkts_swapped : Nat
  pkts_inserted : Nat
  trace : List node_trace_t
  add_del_rv : List Int
  key0 : clib_bihash_kv_16_8_t
  key1 : clib_bihash_kv_16_8_t
  key2 : clib_bihash_kv_16_8_t
  key3 : clib_bihash_kv_16_8_t
  key4 : clib_bihash_kv_16_8_t
  key5 : clib_bihash_kv_16_8_t
  hash0 : Nat
  hash1 : Nat
  hash2 : Nat
  hash3 : Nat
  hash4 : Nat
  hash5 : Nat

/-! ## Flow key derivation -/

/-- The function `get_hash_key` of both `node.c` files.  `udp` is the header at `ip4 + 1`.
`key[0]` is computed in `u64`, `key[1]` in `u32`.  The source leaves `key.value` unset and
every caller assigns it before the record is used; it is `0` here. -/
def get_hash_key (ip4 : ip4_header_t) (udp : udp_header_t) : clib_bihash_kv_16_8_t :=
  { key := (((ip4.src_address <<< 32) % 2 ^ 64) ||| ip4.dst_address,
            ((udp.src_port <<< 16) % 2 ^ 32) ||| udp.dst_port),
    value := 0 }

/-! ## The flow table -/

/-- Scan of one bucket for a key: the first record carrying it. -/
def bucket_search (key : Nat × Nat) (b : List clib_bihash_kv_16_8_t) :
    Option clib_bihash_kv_16_8_t :=
  b.find? (fun r => decide (r.key = key))

/-- Store of a record in one bucket: over the record with the same key, else in a new slot. -/
def bucket_store (kv : clib_bihash_kv_16_8_t) :
    List clib_bihash_kv_16_8_t → List clib_bihash_kv_16_8_t
  | [] => [kv]
  | r :: rs => if r.key = kv.key then kv :: rs else r :: bucket_store kv rs

/-- The bytes of budget one record takes: `sizeof (clib_bihash_kv_16_8_t)`. -/
def kv_bytes : Nat := 24

/-- Modelled from the spec: `clib_bihash_search_inline_with_hash_16_8 (h, hash, key_result)`
(vppinfra, not among the sources), the spec's `lookup` with the hash supplied by the caller:
it locates the bucket of `hash` and scans it for the key that `key_result` holds on entry.
On a match the record is copied to `key_result` and `0` is returned, else `key_result` is
left alone and the result is `-1`. -/
def clib_bihash_search_inline_with_hash_16_8 (h : clib_bihash_16_8_t) (hash : Nat)
    (key_result : clib_bihash_kv_16_8_t) : Int × clib_bihash_kv_16_8_t :=
  match bucket_search key_result.key (h.buckets (hash % h.nbuckets)) with
  | some r => (0, r)
  | none => (-1, key_result)

/-- Modelled from the spec: `clib_bihash_search_16_8 (h, search_key, valuep)` (vppinfra, not
among the sources), the spec's `lookup`: it hashes the key, locates its bucket and scans the
slots; the record found is copied to `valuep`. -/
def clib_bihash_search_16_8 (hash : Nat × Nat → Nat) (h : clib_bihash_16_8_t)
    (search_key valuep : clib_bihash_kv_16_8_t) : Int × clib_bihash_kv_16_8_t :=
  match bucket_search search_key.key (h.buckets (hash search_key.key % h.nbuckets)) with
  | some r => (0, r)
  | none => (-1, valuep)

/-- Modelled from the spec: `clib_bihash_add_del_with_hash_16_8 (h, add_v, hash, 1)`
(vppinfra, not among the sources), the spec's `upsert` with the hash supplied by the caller.
A key present in the bucket has its record overwritten; an absent key gets a new record,
unless the memory budget is exhausted, in which case the table is unchanged and the result
is negative. -/
def clib_bihash_add_del_with_hash_16_8 (h : clib_bihash_16_8_t)
    (add_v : clib_bihash_kv_16_8_t) (hash : Nat) : clib_bihash_16_8_t × Int :=
  let i := hash % h.nbuckets
  match bucket_search add_v.key (h.buckets i) with
  | some _ =>
    ({ h with buckets := fun j => if j = i then bucket_store add_v (h.buckets i)
                                  else h.buckets j }, 0)
  | none =>
    if h.memory_used + kv_bytes ≤ h.memory_size then
      ({ h with memory_used := h.memory_used + kv_bytes,
                buckets := fun j => if j = i then bucket_store add_v (h.buckets i)
                                    else h.buckets j }, 0)
    else (h, -1)

/-- Modelled from the spec: `clib_bihash_add_del_16_8 (h, add_v, 1)` (vppinfra, not among
the sources), the spec's `upsert`: the key is hashed and the record stored in its bucket. -/
def clib_bihash_add_del_16_8 (hash : Nat × Nat → Nat) (h : clib_bihash_16_8_t)
    (add_v : clib_bihash_kv_16_8_t) : clib_bihash_16_8_t × Int :=
  clib_bihash_add_del_with_hash_16_8 h add_v (hash add_v.key)

/-- The table read as a map from FlowKey to count: the spec's `lookup (table, key)`. -/
def lookup (hash : Nat × Nat → Nat) (h : clib_bihash_16_8_t) (key : Nat × Nat) : Option Nat :=
  (bucket_search key (h.buckets (hash key % h.nbuckets))).map (fun r => r.value)

/-! ## The node functions -/

/-- A store through a buffer pointer: `*vlib_get_buffer (vm, bi) = b`. -/
def buffer_write (m : Nat → vlib_buffer_t) (bi : Nat) (b : vlib_buffer_t) :
    Nat → vlib_buffer_t :=
  fun j => if j = bi then b else m j

/-- The macro `vlib_get_next_frame`: it delivers the room left in the frame of the next
node (the pointer `to_next` is implicit in the list of handles written). -/
def vlib_get_next_frame (e : node_env) (s : node_state) : node_state :=
  { s with n_left_to_next := e.room s.frames, frames := s.frames + 1 }

/-- One pass through the body of the single-packet loop, `flowcounter/node.c` lines 132-208
and `ratelimiter/node.c` lines 269-345.  The two texts differ only in the table they name:
`per_cpu->hash_table` in the first, `per_cpu[thread_index].hash_table` in the second; `cpu`
is that index, `pc` the entry found there and `bi0` the handle read from `from[0]`.
`next0` equals `next_index` (the node has one next node), so the enqueue check at the end
of the body changes nothing. -/
def node_x1 (e : node_env) (cpu : Nat) (s : node_state) (bi0 : Nat) (pc : fc_per_cpu_t) :
    node_state :=
  let b0 := s.buffers bi0
  let en0 : ethernet_header_t :=
    { b0.en with dst_address := b0.en.dst_address.set 0 (b0.en.dst_address.getD 1 0) }
  let ip40 := b0.ip4
  let udp0 := b0.udp
  let key := get_hash_key ip40 udp0
  let found := clib_bihash_search_16_8 e.hash pc.hash_table key (e.uninit s.from_)
  let key : clib_bihash_kv_16_8_t :=
    if found.1 < 0 then { key with value := 1 }
    else { key with value := (found.2.value + 1) % 2 ^ 64 }
  let pkts_inserted := if found.1 < 0 then (s.pkts_inserted + 1) % 2 ^ 32 else s.pkts_inserted
  let added := clib_bihash_add_del_16_8 e.hash pc.hash_table key
  let sw_if_index0 := b0.sw_if_index_RX
  let t : node_trace_t :=
    { next_index := 0, sw_if_index := sw_if_index0,
      new_src_mac := en0.src_address, new_dst_mac := en0.dst_address,
      src_ip := ip40.src_address, dst_ip := ip40.dst_address,
      src_port := udp0.src_port, dst_port := udp0.dst_port }
  { s with
    from_ := s.from_ + 1
    n_left_from := s.n_left_from - 1
    to_next := s.to_next ++ [bi0]
    n_left_to_next := s.n_left_to_next - 1
    per_cpu := s.per_cpu.set cpu { pc with hash_table := added.1 }
    buffers := buffer_write s.buffers bi0 { b0 with en := en0, sw_if_index_TX := sw_if_index0 }
    pkts_inserted := pkts_inserted
    pkts_swapped := (s.pkts_swapped + 1) % 2 ^ 32
    trace := if e.node_flag_trace && b0.is_traced then s.trace ++ [t] else s.trace
    add_del_rv := s.add_del_rv ++ [added.2] }

/-- The body of the single-packet loop with its memory accesses checked: `from[0]` and the
per-core entry must exist, and the two counters that are decremented must not be zero. -/
def node_x1_body (e : node_env) (cpu : Nat) (s : node_state) : Except node_fault node_state :=
  if s.n_left_from < 1 ∨ s.n_left_to_next < 1 then .error .underflow
  else
    match e.frame[s.from_]?, s.per_cpu[cpu]? with
    | some bi0, some pc => .ok (node_x1 e cpu s bi0 pc)
    | _, _ => .error .out_of_bounds

/-- The loop `while (n_left_from > 0 && n_left_to_next > 0)` of both node functions. -/
def node_x1_loop (e : node_env) (cpu : Nat) : Nat → node_state → Except node_fault node_state
  | 0, s => if 0 < s.n_left_from ∧ 0 < s.n_left_to_next then .error .out_of_fuel else .ok s
  | fuel + 1, s =>
    if 0 < s.n_left_from ∧ 0 < s.n_left_to_next then
      match node_x1_body e cpu s with
      | .ok s1 => node_x1_loop e cpu fuel s1
      | .error f => .error f
    else .ok s

/-- The loop `while (n_left_from > 0)` around a single-packet loop alone, as in
`flowcounter_node`: get the next frame, run the inner loop, put the frame back (which
changes nothing that is kept here).  `fuel0` is the fuel handed to each inner loop. -/
def node_x1_outer (e : node_env) (cpu : Nat) (fuel0 : Nat) :
    Nat → node_state → Except node_fault node_state
  | 0, s => if 0 < s.n_left_from then .error .out_of_fuel else .ok s
  | fuel + 1, s =>
    if 0 < s.n_left_from then
      match node_x1_loop e cpu fuel0 (vlib_get_next_frame e s) with
      | .ok s1 => node_x1_outer e cpu fuel0 fuel s1
      | .error f => .error f
    else .ok s

/-- The record and hash that stand in the pipeline window before the source assigns them. -/
def kv_unset : clib_bihash_kv_16_8_t := { key := (0, 0), value := 0 }

/-- The locals of a node function at its entry: `from` at the start of the frame,
`n_left_from = frame->n_vectors`, both packet counters `0`, nothing written yet. -/
def node_entry (e : node_env) (per_cpu : List fc_per_cpu_t) (buffers : Nat → vlib_buffer_t) :
    node_state :=
  { per_cpu := per_cpu, buffers := buffers, from_ := 0, n_left_from := e.frame.length,
    to_next := [], n_left_to_next := 0, frames := 0, pkts_swapped := 0, pkts_inserted := 0,
    trace := [], add_del_rv := [],
    key0 := kv_unset, key1 := kv_unset, key2 := kv_unset, key3 := kv_unset,
    key4 := kv_unset, key5 := kv_unset,
    hash0 := 0, hash1 := 0, hash2 := 0, hash3 := 0, hash4 := 0, hash5 := 0 }

/-- The node function `flowcounter_node`.  Every table access goes through
`fcm->per_cpu->hash_table`, the entry at index `0`.  The result is the final state, whose
`pkts_swapped` and `pkts_inserted` are what is added to the SWAPPED and INSERTS counters,
paired with the returned `frame->n_vectors`. -/
def flowcounter_node (e : node_env) (fuel : Nat) (per_cpu : List fc_per_cpu_t)
    (buffers : Nat → vlib_buffer_t) : Except node_fault (node_state × Nat) :=
  match node_x1_outer e 0 fuel fuel (node_entry e per_cpu buffers) with
  | .ok s => .ok (s, e.frame.length)
  | .error f => .error f

/-- The priming block of `ratelimiter_node` (lines 137-161): the keys and hashes of the
packets at `from[0..3]`. -/
def ratelimiter_prime (e : node_env) (s : node_state) (bi0 bi1 bi2 bi3 : Nat) : node_state :=
  let key0 := get_hash_key (s.buffers bi0).ip4 (s.buffers bi0).udp
  let key1 := get_hash_key (s.buffers bi1).ip4 (s.buffers bi1).udp
  let key2 := get_hash_key (s.buffers bi2).ip4 (s.buffers bi2).udp
  let key3 := get_hash_key (s.buffers bi3).ip4 (s.buffers bi3).udp
  { s with
    key0 := key0, key1 := key1, key2 := key2, key3 := key3
    hash0 := e.hash key0.key, hash1 := e.hash key1.key
    hash2 := e.hash key2.key, hash3 := e.hash key3.key }

/-- The priming block with its reads of `from[0..3]` checked. -/
def ratelimiter_prime_body (e : node_env) (s : node_state) : Except node_fault node_state :=
  match e.frame[s.from_]?, e.frame[s.from_ + 1]?, e.frame[s.from_ + 2]?,
        e.frame[s.from_ + 3]? with
  | some bi0, some bi1, some bi2, some bi3 => .ok (ratelimiter_prime e s bi0 bi1 bi2 bi3)
  | _, _, _, _ => .error .out_of_bounds

/-- One pass through the body of the paired loop of `ratelimiter_node` (lines 164-264).
`bi0`, `bi1`, `bi4`, `bi5` are the handles read from `from[0]`, `from[1]`, `from[4]`,
`from[5]`, and `pc` is `per_cpu[thread_index]`.  The prefetches have no effect on the
state.  Each search is handed the precomputed hash and the address of the local `value0`
resp. `value1`, which the source declares without giving it a value (line 224). -/
def ratelimiter_x2 (e : node_env) (s : node_state) (bi0 bi1 bi4 bi5 : Nat)
    (pc : fc_per_cpu_t) : node_state :=
  let key4 := get_hash_key (s.buffers bi4).ip4 (s.buffers bi4).udp
  let key5 := get_hash_key (s.buffers bi5).ip4 (s.buffers bi5).udp
  let hash4 := e.hash key4.key
  let hash5 := e.hash key5.key
  let value0 := e.uninit s.from_
  let value1 := e.uninit (s.from_ + 1)
  let found0 := clib_bihash_search_inline_with_hash_16_8 pc.hash_table s.hash0 value0
  let key0 : clib_bihash_kv_16_8_t :=
    if found0.1 < 0 then { s.key0 with value := 1 }
    else { s.key0 with value := (found0.2.value + 1) % 2 ^ 64 }
  let inserted0 := if found0.1 < 0 then (s.pkts_inserted + 1) % 2 ^ 32 else s.pkts_inserted
  let added0 := clib_bihash_add_del_with_hash_16_8 pc.hash_table key0 s.hash0
  let found1 := clib_bihash_search_inline_with_hash_16_8 added0.1 s.hash1 value1
  let key1 : clib_bihash_kv_16_8_t :=
    if found1.1 < 0 then { s.key1 with value := 1 }
    else { s.key1 with value := (found1.2.value + 1) % 2 ^ 64 }
  let inserted1 := if found1.1 < 0 then (inserted0 + 1) % 2 ^ 32 else inserted0
  let added1 := clib_bihash_add_del_with_hash_16_8 added0.1 key1 s.hash1
  let sw_if_index0 := (s.buffers bi0).sw_if_index_RX
  let sw_if_index1 := (s.buffers bi1).sw_if_index_RX
  let buffers0 :=
    buffer_write s.buffers bi0 { s.buffers bi0 with sw_if_index_TX := sw_if_index0 }
  let buffers1 :=
    buffer_write buffers0 bi1 { buffers0 bi1 with sw_if_index_TX := sw_if_index1 }
  { s with
    from_ := s.from_ + 2
    n_left_from := s.n_left_from - 2
    to_next := s.to_next ++ [bi0, bi1]
    n_left_to_next := s.n_left_to_next - 2
    per_cpu := s.per_cpu.set e.thread_index { pc with hash_table := added1.1 }
    buffers := buffers1
    pkts_inserted := inserted1
    add_del_rv := s.add_del_rv ++ [added0.2, added1.2]
    key0 := s.key2, key1 := s.key3, key2 := key4, key3 := key5
    key4 := key4, key5 := key5
    hash0 := s.hash2, hash1 := s.hash3, hash2 := hash4, hash3 := hash5
    hash4 := hash4, hash5 := hash5 }

/-- The body of the paired loop with its memory accesses checked: it reads `from[6]`,
`from[7]`, `from[4]`, `from[5]`, `from[0]`, `from[1]` and `per_cpu[thread_index]`, and it
takes `2` from both counters of packets left. -/
def ratelimiter_x2_body (e : node_env) (s : node_state) : Except node_fault node_state :=
  if s.n_left_from < 2 ∨ s.n_left_to_next < 2 then .error .underflow
  else
    match e.frame[s.from_]?, e.frame[s.from_ + 1]?, e.frame[s.from_ + 4]?,
          e.frame[s.from_ + 5]?, e.frame[s.from_ + 6]?, e.frame[s.from_ + 7]?,
          s.per_cpu[e.thread_index]? with
    | some bi0, some bi1, some bi4, some bi5, some _, some _, some pc =>
      .ok (ratelimiter_x2 e s bi0 bi1 bi4 bi5 pc)
    | _, _, _, _, _, _, _ => .error .out_of_bounds

/-- The loop `while (n_left_from >= 8 && n_left_to_next >= 2)` of `ratelimiter_node`. -/
def ratelimiter_x2_loop (e : node_env) : Nat → node_state → Except node_fault node_state
  | 0, s => if 8 ≤ s.n_left_from ∧ 2 ≤ s.n_left_to_next then .error .out_of_fuel else .ok s
  | fuel + 1, s =>
    if 8 ≤ s.n_left_from ∧ 2 ≤ s.n_left_to_next then
      match ratelimiter_x2_body e s with
      | .ok s1 => ratelimiter_x2_loop e fuel s1
      | .error f => .error f
    else .ok s

/-- The body of the loop `while (n_left_from > 0)` of `ratelimiter_node`: next frame,
priming block under its guard, paired loop, single-packet loop. -/
def ratelimiter_outer_body (e : node_env) (fuel0 : Nat) (s : node_state) :
    Except node_fault node_state :=
  let s1 := vlib_get_next_frame e s
  let primed :=
    if 8 ≤ s1.n_left_from ∧ 2 ≤ s1.n_left_to_next then ratelimiter_prime_body e s1
    else .ok s1
  match primed with
  | .ok s2 =>
    match ratelimiter_x2_loop e fuel0 s2 with
    | .ok s3 => node_x1_loop e e.thread_index fuel0 s3
    | .error f => .error f
  | .error f => .error f

/-- The loop `while (n_left_from > 0)` of `ratelimiter_node`. -/
def ratelimiter_outer (e : node_env) (fuel0 : Nat) :
    Nat → node_state → Except node_fault node_state
  | 0, s => if 0 < s.n_left_from then .error .out_of_fuel else .ok s
  | fuel + 1, s =>
    if 0 < s.n_left_from then
      match ratelimiter_outer_body e fuel0 s with
      | .ok s1 => ratelimiter_outer e fuel0 fuel s1
      | .error f => .error f
    else .ok s

/-- The node function `ratelimiter_node`.  Line 118 copies `per_cpu[thread_index]` into a
local that only the prefetches use; the read itself needs the entry to exist. -/
def ratelimiter_node (e : node_env) (fuel : Nat) (per_cpu : List fc_per_cpu_t)
    (buffers : Nat → vlib_buffer_t) : Except node_fault (node_state × Nat) :=
  match per_cpu[e.thread_index]? with
  | none => .error .out_of_bounds
  | some _ =>
    match ratelimiter_outer e fuel fuel (node_entry e per_cpu buffers) with
    | .ok s => .ok (s, e.frame.length)
    | .error f => .error f

/-- The spec's processor at pipeline depth 1: the per-packet update applied to one packet
at a time in batch order, that is, the single-packet loop of `ratelimiter_node` run over
the whole batch on the table of `thread_index`. -/
def ratelimiter_node_depth1 (e : node_env) (fuel : Nat) (per_cpu : List fc_per_cpu_t)
    (buffers : Nat → vlib_buffer_t) : Except node_fault (node_state × Nat) :=
  match per_cpu[e.thread_index]? with
  | none => .error .out_of_bounds
  | some _ =>
    match node_x1_outer e e.thread_index fuel fuel (node_entry e per_cpu buffers) with
    | .ok s => .ok (s, e.frame.length)
    | .error f => .error f

/-! ## Plugin initialisation -/

/-- The `flowcounter_main_t` / `clb_main_t` / `cpolicer_main_t` of the plugins, with the
fields that `sourcecounter.h` declares for its own: the message id base, the `vnet_main`
pointer, the per-core vector, and whether `writer_lock` has been given a lock. -/
structure plugin_main_t where
  msg_id_base : Nat
  vnet_main : Nat
  per_cpu : List fc_per_cpu_t
  writer_lock : Bool

/-- A zero-filled `fc_per_cpu_t`, as `vec_validate` leaves a new element: a table with no
name, no buckets and no budget. -/
def fc_per_cpu_zero : fc_per_cpu_t :=
  { hash_table := { name := "", nbuckets := 0, memory_size := 0, memory_used := 0,
                    buckets := fun _ => [] } }

/-- Modelled from the spec: the vppinfra macro `vec_validate (V, I)` (not among the
sources), by which `initialize` gets its one entry per core: the vector is made long
enough to be indexed at `I`, the new elements zero-filled. -/
def vec_validate (v : List fc_per_cpu_t) (i : Nat) : List fc_per_cpu_t :=
  v ++ List.replicate (i + 1 - v.length) fc_per_cpu_zero

/-- Modelled from the spec: `clib_bihash_init_16_8 (h, name, nbuckets, memory_size)`
(vppinfra, not among the sources), the per-table part of the spec's `initialize`: the
table gets the name, the bucket capacity and the byte budget given, and holds no record. -/
def clib_bihash_init_16_8 (_h : clib_bihash_16_8_t) (name : String)
    (nbuckets memory_size : Nat) : clib_bihash_16_8_t :=
  { name := name, nbuckets := nbuckets, memory_size := memory_size, memory_used := 0,
    buckets := fun _ => [] }

/-- The loop `for (int i=0; i < tm->n_vlib_mains; i++)` of `flowcounter_init` and
`clb_init`, entered at `i`: the name is `format (0, "<plugin>_%d", i)`, the table of
`per_cpu[i]` is initialised with 2097152 buckets and `1 << 30` bytes.  The two texts differ
in the plugin name alone. -/
def init_tables_loop (plugin : String) (n_vlib_mains : Nat) :
    Nat → Nat → List fc_per_cpu_t → Except node_fault (List fc_per_cpu_t)
  | 0, i, per_cpu => if i < n_vlib_mains then .error .out_of_fuel else .ok per_cpu
  | fuel + 1, i, per_cpu =>
    if i < n_vlib_mains then
      match per_cpu[i]? with
      | some pc =>
        init_tables_loop plugin n_vlib_mains fuel (i + 1)
          (per_cpu.set i
            { pc with hash_table :=
                (clib_bihash_init_16_8 pc.hash_table (plugin ++ "_" ++ toString i)
                  2097152 (1 <<< 30)) })
      | none => .error .out_of_bounds
    else .ok per_cpu

/-- The function `flowcounter_init`.  `vnet_main` and `msg_id_base` are what
`vnet_get_main ()` and `setup_message_id_table ()` return, `n_vlib_mains` is the `u32`
read from `vlib_get_thread_main ()`; the `u32` difference `n_vlib_mains - 1` would wrap
for `0`, which is an error here.  The result is the plugin's main structure and the
returned `clib_error_t *`, `none` being the null pointer. -/
def flowcounter_init (sm : plugin_main_t) (vnet_main msg_id_base n_vlib_mains fuel : Nat) :
    Except node_fault (plugin_main_t × Option String) :=
  if n_vlib_mains < 1 then .error .underflow
  else
    let per_cpu := vec_validate [] (n_vlib_mains - 1)
    match init_tables_loop "flowcounter" n_vlib_mains fuel 0 per_cpu with
    | .ok p =>
      .ok ({ sm with vnet_main := vnet_main, msg_id_base := msg_id_base, per_cpu := p }, none)
    | .error f => .error f

/-- The function `clb_init`, the text of `flowcounter_init` with the plugin name `clb`. -/
def clb_init (sm : plugin_main_t) (vnet_main msg_id_base n_vlib_mains fuel : Nat) :
    Except node_fault (plugin_main_t × Option String) :=
  if n_vlib_mains < 1 then .error .underflow
  else
    let per_cpu := vec_validate [] (n_vlib_mains - 1)
    match init_tables_loop "clb" n_vlib_mains fuel 0 per_cpu with
    | .ok p =>
      .ok ({ sm with vnet_main := vnet_main, msg_id_base := msg_id_base, per_cpu := p }, none)
    | .error f => .error f

/-- The function `cpolicer_init`.  It has no loop: `int i = 0`, one name
`format (0, "cpolicer_%d", i)`, one call of `clib_bihash_init_16_8` on `per_cpu[i]` with
4194304 buckets and `1 << 30` bytes, then `clib_spinlock_init (&sm->writer_lock)`. -/
def cpolicer_init (sm : plugin_main_t) (vnet_main msg_id_base n_vlib_mains : Nat) :
    Except node_fault (plugin_main_t × Option String) :=
  if n_vlib_mains < 1 then .error .underflow
  else
    let per_cpu := vec_validate [] (n_vlib_mains - 1)
    let i := 0
    match per_cpu[i]? with
    | some pc =>
      .ok ({ sm with
             vnet_main := vnet_main, msg_id_base := msg_id_base
             per_cpu := per_cpu.set i
               { pc with hash_table :=
                   (clib_bihash_init_16_8 pc.hash_table ("cpolicer" ++ "_" ++ toString i)
                     4194304 (1 <<< 30)) }
             writer_lock := true }, none)
    | none => .error .out_of_bounds

/-! ## Vocabulary of the properties -/

/-- The FlowKey of a packet: the two key words that `get_hash_key` derives from its headers. -/
def flow_key (b : vlib_buffer_t) : Nat × Nat :=
  (get_hash_key b.ip4 b.udp).key

/-- The FlowKeys of the packets of a batch, in batch order. -/
def batch_keys (buffers : Nat → vlib_buffer_t) (frame : List Nat) : List (Nat × Nat) :=
  frame.map (fun bi => flow_key (buffers bi))

/-- Every table insertion of a finished run returned `0`. -/
def insertions_succeed (r : Except node_fault (node_state × Nat)) : Bool :=
  match r with
  | .ok (s, _) => s.add_del_rv.all (fun rv => decide (rv = 0))
  | .error _ => false

/-- What a node invocation leaves of a buffer `b` in the buffer `b1` it has become: the
trace flag, the inbound interface, the IPv4 and UDP headers, the Ethernet source address
and type are the same; the Ethernet destination address is the same or has had its byte 0
overwritten with its byte 1.  The outbound interface is left open. -/
def header_frame (b b1 : vlib_buffer_t) : Prop :=
  b1.is_traced = b.is_traced ∧ b1.sw_if_index_RX = b.sw_if_index_RX ∧
  b1.ip4 = b.ip4 ∧ b1.udp = b.udp ∧
  b1.en.src_address = b.en.src_address ∧ b1.en.type = b.en.type ∧
  (b1.en.dst_address = b.en.dst_address ∨
    b1.en.dst_address = b.en.dst_address.set 0 (b.en.dst_address.getD 1 0))

/-- The count the per-packet update stores for a key whose lookup gave `c`: `1` for an
absent key, the stored count plus one in `u64` for a present one. -/
def next_count (c : Option Nat) : Nat :=
  match c with
  | none => 1
  | some v => (v + 1) % 2 ^ 64

/-- The count of a key after `m` packets of it, when it stood at `c` before: unchanged
for `m = 0`, else `(c + m) mod 2^64` with an absent key starting from `0`. -/
def counted (c : Option Nat) (m : Nat) : Option Nat :=
  if m = 0 then c else some ((c.getD 0 + m) % 2 ^ 64)

/-- The number of distinct keys among `keys` that the table `h` does not hold. -/
def new_flows (hash : Nat × Nat → Nat) (h : clib_bihash_16_8_t) (keys : List (Nat × Nat)) :
    Nat :=
  (keys.toFinset.filter (fun k => lookup hash h k = none)).card

/-- Two states that agree on everything except, possibly, the per-core entries at
indices other than `cpu`. -/
def agree_off_cores (cpu : Nat) (s t : node_state) : Prop :=
  s.per_cpu[cpu]? = t.per_cpu[cpu]? ∧ { s with per_cpu := [] } = { t with per_cpu := [] }

/-- Two outcomes of a run that are the same fault, or states agreeing in the above sense. -/
def agree_off_cores_result (cpu : Nat) (r1 r2 : Except node_fault node_state) : Prop :=
  match r1, r2 with
  | .ok s, .ok t => agree_off_cores cpu s t
  | .error a, .error b => a = b
  | _, _ => False

/-- The per-packet update of the table for a packet of FlowKey `k`, as the single-packet
loop makes it: `k` is inserted with the count that follows from its lookup.  The result is
the table and the return value of the insertion. -/
def flow_update (hash : Nat × Nat → Nat) (h : clib_bihash_16_8_t) (k : Nat × Nat) :
    clib_bihash_16_8_t × Int :=
  clib_bihash_add_del_16_8 hash h { key := k, value := next_count (lookup hash h k) }

/-- The per-packet update on the table, the new-flow counter and the log of insertion
results together: the counter goes up when the lookup misses, whatever the insertion
returns. -/
def flow_step (hash : Nat × Nat → Nat) (a : clib_bihash_16_8_t × Nat × List Int)
    (k : Nat × Nat) : clib_bihash_16_8_t × Nat × List Int :=
  ((flow_update hash a.1 k).1,
   if lookup hash a.1 k = none then (a.2.1 + 1) % 2 ^ 32 else a.2.1,
   a.2.2 ++ [(flow_update hash a.1 k).2])

/-- The outcome of a loop in which no read went out of bounds and no counter was taken
below zero: either a state in which `from` and `n_left_from` still add up to the frame
(and the per-core entry is in place), or the loss of fuel. -/
def in_bounds_result (e : node_env) (cpu : Nat) (r : Except node_fault node_state) : Prop :=
  match r with
  | .ok s => s.from_ + s.n_left_from = e.frame.length ∧ cpu < s.per_cpu.length
  | .error f => f = .out_of_fuel

/-- The pipeline window of `s` holds the packets at `from[0..3]`: for `j = 0, 1, 2, 3`,
`key_j` is `get_hash_key` of the packet at `from[j]` and `hash_j` is the hash of `key_j`. -/
def window_ok (e : node_env) (s : node_state) : Prop :=
  ∃ bi0 bi1 bi2 bi3,
    e.frame[s.from_]? = some bi0 ∧ e.frame[s.from_ + 1]? = some bi1 ∧
    e.frame[s.from_ + 2]? = some bi2 ∧ e.frame[s.from_ + 3]? = some bi3 ∧
    s.key0 = get_hash_key (s.buffers bi0).ip4 (s.buffers bi0).udp ∧
    s.key1 = get_hash_key (s.buffers bi1).ip4 (s.buffers bi1).udp ∧
    s.key2 = get_hash_key (s.buffers bi2).ip4 (s.buffers bi2).udp ∧
    s.key3 = get_hash_key (s.buffers bi3).ip4 (s.buffers bi3).udp ∧
    s.hash0 = e.hash s.key0.key ∧ s.hash1 = e.hash s.key1.key ∧
    s.hash2 = e.hash s.key2.key ∧ s.hash3 = e.hash s.key3.key

/-! ## Concrete inputs -/

/-- A table without records, with the given number of buckets and memory budget. -/
def empty_table (nbuckets memory_size : Nat) : clib_bihash_16_8_t :=
  { name := "", nbuckets := nbuckets, memory_size := memory_size, memory_used := 0,
    buckets := fun _ => [] }

/-- A UDP packet over IPv4 with the given addresses and ports, received on interface `rx`. -/
def udp_packet (src dst sport dport rx : Nat) : vlib_buffer_t :=
  { is_traced := false
    sw_if_index_RX := rx
    sw_if_index_TX := 0
    en := ⟨[1, 2, 3, 4, 5, 6], [7, 8, 9, 10, 11, 12], 2048⟩
    ip4 := ⟨69, 0, 28, 0, 0, 64, 17, 0, src, dst⟩
    udp := ⟨sport, dport, 8, 0⟩ }

/-- A buffer pool in which every handle holds a packet of the flow `(1, 2, 3, 4)`. -/
def one_flow_pool : Nat → vlib_buffer_t :=
  fun _ => udp_packet 1 2 3 4 5

/-- A buffer pool with three flows: handle `bi` holds a packet from address `bi % 3`. -/
def three_flow_pool : Nat → vlib_buffer_t :=
  fun bi => udp_packet (bi % 3) 2 3 4 5

/-- A stand-in for `clib_bihash_hash_16_8`. -/
def sum_hash (k : Nat × Nat) : Nat :=
  (k.1 + k.2) % 2 ^ 64

/-- An invocation on the given thread and frame: every next frame has room for 256
handles, the locals that the source leaves unset hold the zero record, tracing is off. -/
def plain_env (thread_index : Nat) (frame : List Nat) : node_env :=
  { hash := sum_hash, room := fun _ => 256, uninit := fun _ => kv_unset,
    thread_index := thread_index, node_flag_trace := false, frame := frame }

/-- The same invocation with arbitrary contents `u` in the locals left unset. -/
def plain_env_with (u : Nat → clib_bihash_kv_16_8_t) (thread_index : Nat)
    (frame : List Nat) : node_env :=
  { plain_env thread_index frame with uninit := u }

/-- A frame of eight handles. -/
def eight_handles : List Nat := [10, 11, 12, 13, 14, 15, 16, 17]

/-- Two cores, each with an empty table of four buckets and a budget of 1024 bytes. -/
def two_empty_cores : List fc_per_cpu_t :=
  [⟨empty_table 4 1024⟩, ⟨empty_table 4 1024⟩]

/-- A plugin main structure before initialisation: all fields zero. -/
def plugin_main_zero : plugin_main_t :=
  { msg_id_base := 0, vnet_main := 0, per_cpu := [], writer_lock := false }

/-- A frame of twelve handles. -/
def twelve_handles : List Nat := [1, 2, 3, 4, 5, 6, 7, 8, 9, 10, 11, 12]

/-- Two cores, each with an empty table of four buckets and a budget of 48 bytes, which
is room for two records. -/
def two_tight_cores : List fc_per_cpu_t :=
  [⟨empty_table 4 48⟩, ⟨empty_table 4 48⟩]

/-- A table of four buckets and a budget of 1024 bytes that holds one record: the flow
`(1, 2, 3, 8)` with count `5`. -/
def other_flow_table : clib_bihash_16_8_t :=
  (clib_bihash_add_del_16_8 sum_hash (empty_table 4 1024)
    { key := flow_key (udp_packet 1 2 3 8 5), value := 5 }).1

/-- One core, its table being `other_flow_table`. -/
def other_flow_core : List fc_per_cpu_t :=
  [⟨other_flow_table⟩]

/-- An invocation on thread 0 over eight handles in which the locals that the source
leaves unset hold a record with the key of the flow `(1, 2, 3, 8)`. -/
def stale_value_env : node_env :=
  plain_env_with (fun _ => { key := flow_key (udp_packet 1 2 3 8 5), value := 0 }) 0
    eight_handles

/-! # Theorems -/

/-! ## The loops run to completion and carry invariants -/

theorem node_x1_body_ok (e : node_env) (cpu : Nat) (s : node_state)
    (h1 : 0 < s.n_left_from) (h2 : 0 < s.n_left_to_next)
    (hfrom : s.from_ < e.frame.length) (hc : cpu < s.per_cpu.length) :
    ∃ bi0 pc, e.frame[s.from_]? = some bi0 ∧ s.per_cpu[cpu]? = some pc ∧
      node_x1_body e cpu s = .ok (node_x1 e cpu s bi0 pc) := by
  refine ⟨e.frame[s.from_], s.per_cpu[cpu], List.getElem?_eq_getElem hfrom,
    List.getElem?_eq_getElem hc, ?_⟩
  have hn : ¬ (s.n_left_from < 1 ∨ s.n_left_to_next < 1) := by omega
  simp only [node_x1_body, hn, if_false, List.getElem?_eq_getElem hfrom,
    List.getElem?_eq_getElem hc]

theorem node_x1_loop_inv (e : node_env) (cpu : Nat) (P : node_state → Prop)
    (hx1 : ∀ s bi0 pc, P s → e.frame[s.from_]? = some bi0 → s.per_cpu[cpu]? = some pc →
      P (node_x1 e cpu s bi0 pc)) :
    ∀ fuel s, P s → s.from_ + s.n_left_from = e.frame.length → cpu < s.per_cpu.length →
      s.n_left_from ≤ fuel →
      ∃ s1, node_x1_loop e cpu fuel s = .ok s1 ∧ P s1 ∧
        s1.from_ + s1.n_left_from = e.frame.length ∧ cpu < s1.per_cpu.length ∧
        (s1.n_left_from = 0 ∨ s1.n_left_to_next = 0) ∧ s1.n_left_from ≤ s.n_left_from ∧
        (0 < s.n_left_from → 0 < s.n_left_to_next → s1.n_left_from < s.n_left_from) := by
  intro fuel
  induction fuel with
  | zero =>
    intro s hP hb hc hf
    have h0 : s.n_left_from = 0 := by omega
    refine ⟨s, ?_, hP, hb, hc, Or.inl h0, le_refl _, by omega⟩
    simp [node_x1_loop, h0]
  | succ n ih =>
    intro s hP hb hc hf
    by_cases hg : 0 < s.n_left_from ∧ 0 < s.n_left_to_next
    · obtain ⟨bi0, pc, hbi, hpc, hbody⟩ :=
        node_x1_body_ok e cpu s hg.1 hg.2 (by omega) hc
      have hP1 := hx1 s bi0 pc hP hbi hpc
      have hfrom1 : (node_x1 e cpu s bi0 pc).from_ = s.from_ + 1 := rfl
      have hleft1 : (node_x1 e cpu s bi0 pc).n_left_from = s.n_left_from - 1 := rfl
      have hlen1 : (node_x1 e cpu s bi0 pc).per_cpu.length = s.per_cpu.length := by
        simp [node_x1]
      obtain ⟨s1, hrun, hPs1, hb1, hc1, hend, hle, _⟩ :=
        ih (node_x1 e cpu s bi0 pc) hP1 (by rw [hfrom1, hleft1]; omega)
          (by rw [hlen1]; exact hc) (by rw [hleft1]; omega)
      refine ⟨s1, ?_, hPs1, hb1, hc1, hend, by rw [hleft1] at hle; omega,
        fun _ _ => by rw [hleft1] at hle; omega⟩
      simp only [node_x1_loop, hg, and_self, if_true, hbody, hrun]
    · refine ⟨s, ?_, hP, hb, hc, by omega, le_refl _, fun h1 h2 => absurd ⟨h1, h2⟩ hg⟩
      simp only [node_x1_loop, hg, if_false]

theorem node_x1_outer_inv (e : node_env) (cpu : Nat) (P : node_state → Prop)
    (hroom : ∀ k, 0 < e.room k)
    (hget : ∀ s, P s → P (vlib_get_next_frame e s))
    (hx1 : ∀ s bi0 pc, P s → e.frame[s.from_]? = some bi0 → s.per_cpu[cpu]? = some pc →
      P (node_x1 e cpu s bi0 pc))
    (fuel0 : Nat) :
    ∀ fuel s, P s → s.from_ + s.n_left_from = e.frame.length → cpu < s.per_cpu.length →
      s.n_left_from ≤ fuel0 → s.n_left_from ≤ fuel →
      ∃ s1, node_x1_outer e cpu fuel0 fuel s = .ok s1 ∧ P s1 ∧
        s1.n_left_from = 0 ∧ s1.from_ = e.frame.length ∧ cpu < s1.per_cpu.length := by
  intro fuel
  induction fuel with
  | zero =>
    intro s hP hb hc _ hf
    have h0 : s.n_left_from = 0 := by omega
    refine ⟨s, ?_, hP, h0, by omega, hc⟩
    simp [node_x1_outer, h0]
  | succ n ih =>
    intro s hP hb hc hf0 hf
    by_cases hg : 0 < s.n_left_from
    · have hr := hroom s.frames
      obtain ⟨s1, hrun, hP1, hb1, hc1, _, hle, hprog⟩ :=
        node_x1_loop_inv e cpu P hx1 fuel0 (vlib_get_next_frame e s) (hget s hP) hb hc hf0
      have hlt : s1.n_left_from < s.n_left_from := hprog hg hr
      obtain ⟨s2, hrun2, hP2, hz, hfr, hc2⟩ :=
        ih s1 hP1 hb1 hc1 (by omega) (by omega)
      refine ⟨s2, ?_, hP2, hz, hfr, hc2⟩
      simp only [node_x1_outer, hg, if_true, hrun, hrun2]
    · refine ⟨s, ?_, hP, by omega, by omega, hc⟩
      simp only [node_x1_outer, hg, if_false]

theorem ratelimiter_prime_body_ok (e : node_env) (s : node_state)
    (h8 : 8 ≤ s.n_left_from) (hb : s.from_ + s.n_left_from = e.frame.length) :
    ∃ bi0 bi1 bi2 bi3, e.frame[s.from_]? = some bi0 ∧ e.frame[s.from_ + 1]? = some bi1 ∧
      e.frame[s.from_ + 2]? = some bi2 ∧ e.frame[s.from_ + 3]? = some bi3 ∧
      ratelimiter_prime_body e s = .ok (ratelimiter_prime e s bi0 bi1 bi2 bi3) := by
  have h0 : s.from_ < e.frame.length := by omega
  have h1 : s.from_ + 1 < e.frame.length := by omega
  have h2 : s.from_ + 2 < e.frame.length := by omega
  have h3 : s.from_ + 3 < e.frame.length := by omega
  refine ⟨e.frame[s.from_], e.frame[s.from_ + 1], e.frame[s.from_ + 2], e.frame[s.from_ + 3],
    List.getElem?_eq_getElem h0, List.getElem?_eq_getElem h1, List.getElem?_eq_getElem h2,
    List.getElem?_eq_getElem h3, ?_⟩
  simp only [ratelimiter_prime_body, List.getElem?_eq_getElem h0, List.getElem?_eq_getElem h1,
    List.getElem?_eq_getElem h2, List.getElem?_eq_getElem h3]

theorem ratelimiter_x2_body_ok (e : node_env) (s : node_state)
    (h8 : 8 ≤ s.n_left_from) (h2 : 2 ≤ s.n_left_to_next)
    (hb : s.from_ + s.n_left_from = e.frame.length) (hc : e.thread_index < s.per_cpu.length) :
    ∃ bi0 bi1 bi4 bi5 pc, e.frame[s.from_]? = some bi0 ∧ e.frame[s.from_ + 1]? = some bi1 ∧
      e.frame[s.from_ + 4]? = some bi4 ∧ e.frame[s.from_ + 5]? = some bi5 ∧
      s.per_cpu[e.thread_index]? = some pc ∧
      ratelimiter_x2_body e s = .ok (ratelimiter_x2 e s bi0 bi1 bi4 bi5 pc) := by
  have k0 : s.from_ < e.frame.length := by omega
  have k1 : s.from_ + 1 < e.frame.length := by omega
  have k4 : s.from_ + 4 < e.frame.length := by omega
  have k5 : s.from_ + 5 < e.frame.length := by omega
  have k6 : s.from_ + 6 < e.frame.length := by omega
  have k7 : s.from_ + 7 < e.frame.length := by omega
  refine ⟨e.frame[s.from_], e.frame[s.from_ + 1], e.frame[s.from_ + 4], e.frame[s.from_ + 5],
    s.per_cpu[e.thread_index], List.getElem?_eq_getElem k0, List.getElem?_eq_getElem k1,
    List.getElem?_eq_getElem k4, List.getElem?_eq_getElem k5, List.getElem?_eq_getElem hc, ?_⟩
  have hn : ¬ (s.n_left_from < 2 ∨ s.n_left_to_next < 2) := by omega
  simp only [ratelimiter_x2_body, hn, if_false, List.getElem?_eq_getElem k0,
    List.getElem?_eq_getElem k1, List.getElem?_eq_getElem k4, List.getElem?_eq_getElem k5,
    List.getElem?_eq_getElem k6, List.getElem?_eq_getElem k7, List.getElem?_eq_getElem hc]

theorem ratelimiter_x2_loop_inv (e : node_env) (P : node_state → Prop)
    (hx2 : ∀ s bi0 bi1 bi4 bi5 pc, P s → 8 ≤ s.n_left_from →
      e.frame[s.from_]? = some bi0 → e.frame[s.from_ + 1]? = some bi1 →
      e.frame[s.from_ + 4]? = some bi4 → e.frame[s.from_ + 5]? = some bi5 →
      s.per_cpu[e.thread_index]? = some pc → P (ratelimiter_x2 e s bi0 bi1 bi4 bi5 pc)) :
    ∀ fuel s, P s → s.from_ + s.n_left_from = e.frame.length →
      e.thread_index < s.per_cpu.length → s.n_left_from ≤ fuel →
      ∃ s1, ratelimiter_x2_loop e fuel s = .ok s1 ∧ P s1 ∧
        s1.from_ + s1.n_left_from = e.frame.length ∧ e.thread_index < s1.per_cpu.length ∧
        s1.n_left_from ≤ s.n_left_from ∧
        (s1.n_left_from < s.n_left_from ∨ s1.n_left_to_next = s.n_left_to_next) := by
  intro fuel
  induction fuel with
  | zero =>
    intro s hP hb hc hf
    have h0 : ¬ (8 ≤ s.n_left_from ∧ 2 ≤ s.n_left_to_next) := by omega
    refine ⟨s, ?_, hP, hb, hc, le_refl _, Or.inr rfl⟩
    simp only [ratelimiter_x2_loop, h0, if_false]
  | succ n ih =>
    intro s hP hb hc hf
    by_cases hg : 8 ≤ s.n_left_from ∧ 2 ≤ s.n_left_to_next
    · obtain ⟨bi0, bi1, bi4, bi5, pc, r0, r1, r4, r5, rpc, hbody⟩ :=
        ratelimiter_x2_body_ok e s hg.1 hg.2 hb hc
      have hP1 := hx2 s bi0 bi1 bi4 bi5 pc hP hg.1 r0 r1 r4 r5 rpc
      have hfrom1 : (ratelimiter_x2 e s bi0 bi1 bi4 bi5 pc).from_ = s.from_ + 2 := rfl
      have hleft1 : (ratelimiter_x2 e s bi0 bi1 bi4 bi5 pc).n_left_from = s.n_left_from - 2 :=
        rfl
      have hlen1 : (ratelimiter_x2 e s bi0 bi1 bi4 bi5 pc).per_cpu.length
          = s.per_cpu.length := by
        simp [ratelimiter_x2]
      obtain ⟨s1, hrun, hPs1, hb1, hc1, hle, _⟩ :=
        ih (ratelimiter_x2 e s bi0 bi1 bi4 bi5 pc) hP1 (by rw [hfrom1, hleft1]; omega)
          (by rw [hlen1]; exact hc) (by rw [hleft1]; omega)
      refine ⟨s1, ?_, hPs1, hb1, hc1, by rw [hleft1] at hle; omega,
        Or.inl (by rw [hleft1] at hle; omega)⟩
      simp only [ratelimiter_x2_loop, hg, and_self, if_true, hbody, hrun]
    · refine ⟨s, ?_, hP, hb, hc, le_refl _, Or.inr rfl⟩
      simp only [ratelimiter_x2_loop, hg, if_false]

theorem ratelimiter_outer_inv (e : node_env) (P : node_state → Prop)
    (hroom : ∀ k, 0 < e.room k)
    (hget : ∀ s, P s → P (vlib_get_next_frame e s))
    (hprime : ∀ s bi0 bi1 bi2 bi3, P s → 8 ≤ s.n_left_from →
      e.frame[s.from_]? = some bi0 → e.frame[s.from_ + 1]? = some bi1 →
      e.frame[s.from_ + 2]? = some bi2 → e.frame[s.from_ + 3]? = some bi3 →
      P (ratelimiter_prime e s bi0 bi1 bi2 bi3))
    (hx2 : ∀ s bi0 bi1 bi4 bi5 pc, P s → 8 ≤ s.n_left_from →
      e.frame[s.from_]? = some bi0 → e.frame[s.from_ + 1]? = some bi1 →
      e.frame[s.from_ + 4]? = some bi4 → e.frame[s.from_ + 5]? = some bi5 →
      s.per_cpu[e.thread_index]? = some pc → P (ratelimiter_x2 e s bi0 bi1 bi4 bi5 pc))
    (hx1 : ∀ s bi0 pc, P s → e.frame[s.from_]? = some bi0 →
      s.per_cpu[e.thread_index]? = some pc → P (node_x1 e e.thread_index s bi0 pc))
    (fuel0 : Nat) :
    ∀ fuel s, P s → s.from_ + s.n_left_from = e.frame.length →
      e.thread_index < s.per_cpu.length → s.n_left_from ≤ fuel0 → s.n_left_from ≤ fuel →
      ∃ s1, ratelimiter_outer e fuel0 fuel s = .ok s1 ∧ P s1 ∧
        s1.n_left_from = 0 ∧ s1.from_ = e.frame.length ∧
        e.thread_index < s1.per_cpu.length := by
  intro fuel
  induction fuel with
  | zero =>
    intro s hP hb hc _ hf
    have h0 : s.n_left_from = 0 := by omega
    refine ⟨s, ?_, hP, h0, by omega, hc⟩
    simp [ratelimiter_outer, h0]
  | succ n ih =>
    intro s hP hb hc hf0 hf
    by_cases hg : 0 < s.n_left_from
    · have hr := hroom s.frames
      have hroom1 : (vlib_get_next_frame e s).n_left_to_next = e.room s.frames := rfl
      have hleft1 : (vlib_get_next_frame e s).n_left_from = s.n_left_from := rfl
      have hfrom1 : (vlib_get_next_frame e s).from_ = s.from_ := rfl
      have hcpu1 : (vlib_get_next_frame e s).per_cpu = s.per_cpu := rfl
      -- the priming block
      have hprimed : ∃ s2,
          (if 8 ≤ (vlib_get_next_frame e s).n_left_from ∧
              2 ≤ (vlib_get_next_frame e s).n_left_to_next
            then ratelimiter_prime_body e (vlib_get_next_frame e s)
            else .ok (vlib_get_next_frame e s)) = .ok s2 ∧ P s2 ∧
          s2.from_ = s.from_ ∧ s2.n_left_from = s.n_left_from ∧
          s2.n_left_to_next = e.room s.frames ∧ s2.per_cpu = s.per_cpu := by
        by_cases hp : 8 ≤ (vlib_get_next_frame e s).n_left_from ∧
            2 ≤ (vlib_get_next_frame e s).n_left_to_next
        · obtain ⟨bi0, bi1, bi2, bi3, r0, r1, r2, r3, hbody⟩ :=
            ratelimiter_prime_body_ok e (vlib_get_next_frame e s) hp.1 hb
          refine ⟨_, ?_, hprime _ bi0 bi1 bi2 bi3 (hget s hP) hp.1 r0 r1 r2 r3,
            rfl, rfl, rfl, rfl⟩
          simp only [hp, and_self, if_true, hbody]
        · refine ⟨_, ?_, hget s hP, rfl, rfl, rfl, rfl⟩
          simp only [hp, if_false]
      obtain ⟨s2, hrun2, hP2, hf2, hl2, hr2, hc2⟩ := hprimed
      obtain ⟨s3, hrun3, hP3, hb3, hc3, hle3, hprog3⟩ :=
        ratelimiter_x2_loop_inv e P hx2 fuel0 s2 hP2 (by rw [hf2, hl2]; exact hb)
          (by rw [hc2]; exact hc) (by rw [hl2]; exact hf0)
      obtain ⟨s4, hrun4, hP4, hb4, hc4, _, hle4, hprog4⟩ :=
        node_x1_loop_inv e e.thread_index P hx1 fuel0 s3 hP3 hb3 hc3 (by omega)
      have hlt : s4.n_left_from < s.n_left_from := by
        rcases hprog3 with h | h
        · omega
        · by_cases hz : 0 < s3.n_left_from
          · have := hprog4 hz (by omega)
            omega
          · omega
      obtain ⟨s5, hrun5, hP5, hz5, hfr5, hc5⟩ :=
        ih s4 hP4 hb4 hc4 (by omega) (by omega)
      refine ⟨s5, ?_, hP5, hz5, hfr5, hc5⟩
      simp only [ratelimiter_outer, hg, if_true, ratelimiter_outer_body, hrun2, hrun3, hrun4,
        hrun5]
    · refine ⟨s, ?_, hP, by omega, by omega, hc⟩
      simp only [ratelimiter_outer, hg, if_false]

theorem flowcounter_node_inv (e : node_env) (P : node_state → Prop)
    (hroom : ∀ k, 0 < e.room k)
    (hget : ∀ s, P s → P (vlib_get_next_frame e s))
    (hx1 : ∀ s bi0 pc, P s → e.frame[s.from_]? = some bi0 → s.per_cpu[0]? = some pc →
      P (node_x1 e 0 s bi0 pc))
    (fuel : Nat) (per_cpu : List fc_per_cpu_t) (buffers : Nat → vlib_buffer_t)
    (hfuel : e.frame.length ≤ fuel) (hcpu : 0 < per_cpu.length)
    (hentry : P (node_entry e per_cpu buffers)) :
    ∃ s, flowcounter_node e fuel per_cpu buffers = .ok (s, e.frame.length) ∧ P s ∧
      s.n_left_from = 0 ∧ s.from_ = e.frame.length := by
  obtain ⟨s, hrun, hP, hz, hfr, _⟩ :=
    node_x1_outer_inv e 0 P hroom hget hx1 fuel fuel (node_entry e per_cpu buffers) hentry
      (by simp [node_entry]) hcpu hfuel hfuel
  exact ⟨s, by simp only [flowcounter_node, hrun], hP, hz, hfr⟩

theorem ratelimiter_node_inv (e : node_env) (P : node_state → Prop)
    (hroom : ∀ k, 0 < e.room k)
    (hget : ∀ s, P s → P (vlib_get_next_frame e s))
    (hprime : ∀ s bi0 bi1 bi2 bi3, P s → 8 ≤ s.n_left_from →
      e.frame[s.from_]? = some bi0 → e.frame[s.from_ + 1]? = some bi1 →
      e.frame[s.from_ + 2]? = some bi2 → e.frame[s.from_ + 3]? = some bi3 →
      P (ratelimiter_prime e s bi0 bi1 bi2 bi3))
    (hx2 : ∀ s bi0 bi1 bi4 bi5 pc, P s → 8 ≤ s.n_left_from →
      e.frame[s.from_]? = some bi0 → e.frame[s.from_ + 1]? = some bi1 →
      e.frame[s.from_ + 4]? = some bi4 → e.frame[s.from_ + 5]? = some bi5 →
      s.per_cpu[e.thread_index]? = some pc → P (ratelimiter_x2 e s bi0 bi1 bi4 bi5 pc))
    (hx1 : ∀ s bi0 pc, P s → e.frame[s.from_]? = some bi0 →
      s.per_cpu[e.thread_index]? = some pc → P (node_x1 e e.thread_index s bi0 pc))
    (fuel : Nat) (per_cpu : List fc_per_cpu_t) (buffers : Nat → vlib_buffer_t)
    (hfuel : e.frame.length ≤ fuel) (hcpu : e.thread_index < per_cpu.length)
    (hentry : P (node_entry e per_cpu buffers)) :
    ∃ s, ratelimiter_node e fuel per_cpu buffers = .ok (s, e.frame.length) ∧ P s ∧
      s.n_left_from = 0 ∧ s.from_ = e.frame.length := by
  obtain ⟨s, hrun, hP, hz, hfr, _⟩ :=
    ratelimiter_outer_inv e P hroom hget hprime hx2 hx1 fuel fuel
      (node_entry e per_cpu buffers) hentry (by simp [node_entry]) hcpu hfuel hfuel
  exact ⟨s, by simp only [ratelimiter_node, List.getElem?_eq_getElem hcpu, hrun], hP, hz, hfr⟩

/-! ## C7: batch order -/

theorem take_two_more (l : List Nat) (n a b : Nat) (ha : l[n]? = some a)
    (hb : l[n + 1]? = some b) : l.take (n + 2) = l.take n ++ [a, b] := by
  have h1 : l.take (n + 1 + 1) = l.take (n + 1) ++ l[n + 1]?.toList := List.take_succ
  have h2 : l.take (n + 1) = l.take n ++ l[n]?.toList := List.take_succ
  rw [show n + 2 = n + 1 + 1 from rfl, h1, h2, ha, hb]
  simp

/-- C7.  Batch order preservation.  Whatever room the next frame offers (as long as each
`vlib_get_next_frame` offers some), with enough fuel and the per-core entry in place, both
`flowcounter_node` and `ratelimiter_node` return, and the handles they have written through
`to_next` are exactly the handles of the input frame, in the same order. -/
theorem batch_order_preserved (e : node_env) (fuel : Nat) (per_cpu : List fc_per_cpu_t)
    (buffers : Nat → vlib_buffer_t) (hroom : ∀ k, 0 < e.room k)
    (hfuel : e.frame.length ≤ fuel) (hcpu : e.thread_index < per_cpu.length) :
    (∃ s, flowcounter_node e fuel per_cpu buffers = .ok (s, e.frame.length) ∧
      s.to_next = e.frame) ∧
    (∃ s, ratelimiter_node e fuel per_cpu buffers = .ok (s, e.frame.length) ∧
      s.to_next = e.frame) := by
  constructor
  · obtain ⟨s, hrun, hP, _, hfr⟩ :=
      flowcounter_node_inv e (fun s => s.to_next = e.frame.take s.from_) hroom
        (fun s h => h)
        (fun s bi0 pc h hbi _ => by
          show s.to_next ++ [bi0] = e.frame.take (s.from_ + 1)
          rw [List.take_succ, hbi, h]; rfl)
        fuel per_cpu buffers hfuel (by omega) (by simp [node_entry])
    refine ⟨s, hrun, ?_⟩
    rw [hP, hfr, List.take_length]
  · obtain ⟨s, hrun, hP, _, hfr⟩ :=
      ratelimiter_node_inv e (fun s => s.to_next = e.frame.take s.from_) hroom
        (fun s h => h)
        (fun s _ _ _ _ h _ _ _ _ _ => h)
        (fun s bi0 bi1 _ _ pc h _ h0 h1 _ _ _ => by
          show s.to_next ++ [bi0, bi1] = e.frame.take (s.from_ + 2)
          rw [take_two_more e.frame s.from_ bi0 bi1 h0 h1, h])
        (fun s bi0 pc h hbi _ => by
          show s.to_next ++ [bi0] = e.frame.take (s.from_ + 1)
          rw [List.take_succ, hbi, h]; rfl)
        fuel per_cpu buffers hfuel hcpu (by simp [node_entry])
    refine ⟨s, hrun, ?_⟩
    rw [hP, hfr, List.take_length]

theorem batch_order_preserved_witness :
    (∀ k, 0 < (plain_env 1 eight_handles).room k) ∧
    (plain_env 1 eight_handles).frame.length ≤ 8 ∧
    (plain_env 1 eight_handles).thread_index < two_empty_cores.length ∧
    (∃ s, flowcounter_node (plain_env 1 eight_handles) 8 two_empty_cores one_flow_pool
        = .ok (s, (plain_env 1 eight_handles).frame.length) ∧
      s.to_next = (plain_env 1 eight_handles).frame) ∧
    (∃ s, ratelimiter_node (plain_env 1 eight_handles) 8 two_empty_cores one_flow_pool
        = .ok (s, (plain_env 1 eight_handles).frame.length) ∧
      s.to_next = (plain_env 1 eight_handles).frame) :=
  ⟨fun _ => (by decide : 0 < 256), by decide, by decide,
    batch_order_preserved (plain_env 1 eight_handles) 8 two_empty_cores one_flow_pool
      (fun _ => (by decide : 0 < 256)) (by decide) (by decide)⟩

/-! ## C4: key packing -/

/-- C4.  FlowKey packing.  For an IPv4 header with 32-bit addresses `s`, `d` followed by a
UDP header with 16-bit ports `sp`, `dp`, `get_hash_key` returns `key[0] = (s << 32) | d
= s * 2^32 + d` and `key[1] = (sp << 16) | dp = sp * 2^16 + dp`; and any two header pairs
that agree on these four fields get the same record, so the result depends on nothing
else. -/
theorem get_hash_key_packing (ip4 : ip4_header_t) (udp : udp_header_t)
    (hs : ip4.src_address < 2 ^ 32) (hd : ip4.dst_address < 2 ^ 32)
    (hsp : udp.src_port < 2 ^ 16) (hdp : udp.dst_port < 2 ^ 16) :
    (get_hash_key ip4 udp).key.1 = (ip4.src_address <<< 32) ||| ip4.dst_address ∧
    (get_hash_key ip4 udp).key.1 = ip4.src_address * 2 ^ 32 + ip4.dst_address ∧
    (get_hash_key ip4 udp).key.2 = (udp.src_port <<< 16) ||| udp.dst_port ∧
    (get_hash_key ip4 udp).key.2 = udp.src_port * 2 ^ 16 + udp.dst_port ∧
    (∀ ip4' udp', ip4'.src_address = ip4.src_address →
      ip4'.dst_address = ip4.dst_address → udp'.src_port = udp.src_port →
      udp'.dst_port = udp.dst_port → get_hash_key ip4' udp' = get_hash_key ip4 udp) := by
  have e1 : (ip4.src_address <<< 32) % 2 ^ 64 = ip4.src_address <<< 32 := by
    apply Nat.mod_eq_of_lt
    rw [Nat.shiftLeft_eq]
    omega
  have e2 : (udp.src_port <<< 16) % 2 ^ 32 = udp.src_port <<< 16 := by
    apply Nat.mod_eq_of_lt
    rw [Nat.shiftLeft_eq]
    omega
  have o1 : (ip4.src_address <<< 32) ||| ip4.dst_address
      = ip4.src_address * 2 ^ 32 + ip4.dst_address := by
    rw [Nat.shiftLeft_eq, Nat.mul_comm, ← Nat.mul_add_lt_is_or hd]
  have o2 : (udp.src_port <<< 16) ||| udp.dst_port
      = udp.src_port * 2 ^ 16 + udp.dst_port := by
    rw [Nat.shiftLeft_eq, Nat.mul_comm, ← Nat.mul_add_lt_is_or hdp]
  refine ⟨?_, ?_, ?_, ?_, ?_⟩
  · show (ip4.src_address <<< 32) % 2 ^ 64 ||| ip4.dst_address = _
    rw [e1]
  · show (ip4.src_address <<< 32) % 2 ^ 64 ||| ip4.dst_address = _
    rw [e1, o1]
  · show (udp.src_port <<< 16) % 2 ^ 32 ||| udp.dst_port = _
    rw [e2]
  · show (udp.src_port <<< 16) % 2 ^ 32 ||| udp.dst_port = _
    rw [e2, o2]
  · intro ip4' udp' h1 h2 h3 h4
    simp only [get_hash_key, h1, h2, h3, h4]

theorem get_hash_key_packing_witness :
    (udp_packet 1 2 3 4 5).ip4.src_address < 2 ^ 32 ∧
    (udp_packet 1 2 3 4 5).ip4.dst_address < 2 ^ 32 ∧
    (udp_packet 1 2 3 4 5).udp.src_port < 2 ^ 16 ∧
    (udp_packet 1 2 3 4 5).udp.dst_port < 2 ^ 16 ∧
    (get_hash_key (udp_packet 1 2 3 4 5).ip4 (udp_packet 1 2 3 4 5).udp).key.1
      = 1 * 2 ^ 32 + 2 ∧
    (get_hash_key (udp_packet 1 2 3 4 5).ip4 (udp_packet 1 2 3 4 5).udp).key.2
      = 3 * 2 ^ 16 + 4 :=
  ⟨by decide, by decide, by decide, by decide,
    (get_hash_key_packing (udp_packet 1 2 3 4 5).ip4 (udp_packet 1 2 3 4 5).udp
      (by decide) (by decide) (by decide) (by decide)).2.1,
    (get_hash_key_packing (udp_packet 1 2 3 4 5).ip4 (udp_packet 1 2 3 4 5).udp
      (by decide) (by decide) (by decide) (by decide)).2.2.2.1⟩

/-! ## C10: what the nodes write into a packet -/

theorem getD_one_set_zero (l : List Nat) (v d : Nat) : (l.set 0 v).getD 1 d = l.getD 1 d := by
  cases l <;> rfl

theorem header_frame_refl (b : vlib_buffer_t) : header_frame b b :=
  ⟨rfl, rfl, rfl, rfl, rfl, rfl, Or.inl rfl⟩

theorem header_frame_tx (b b1 : vlib_buffer_t) (v : Nat) (h : header_frame b b1) :
    header_frame b { b1 with sw_if_index_TX := v } := h

theorem header_frame_x1 (b b1 : vlib_buffer_t) (v : Nat) (h : header_frame b b1) :
    header_frame b
      { b1 with
        en := { b1.en with dst_address := b1.en.dst_address.set 0 (b1.en.dst_address.getD 1 0) }
        sw_if_index_TX := v } := by
  obtain ⟨h1, h2, h3, h4, h5, h6, h7⟩ := h
  refine ⟨h1, h2, h3, h4, h5, h6, Or.inr ?_⟩
  show b1.en.dst_address.set 0 (b1.en.dst_address.getD 1 0) = _
  rcases h7 with h7 | h7
  · rw [h7]
  · rw [h7, getD_one_set_zero, List.set_set]

theorem header_frame_step_x1 (e : node_env) (cpu : Nat) (buffers : Nat → vlib_buffer_t)
    (s : node_state) (bi0 : Nat) (pc : fc_per_cpu_t)
    (h : ∀ bi, header_frame (buffers bi) (s.buffers bi) ∧
      (bi ∉ e.frame.take s.from_ → s.buffers bi = buffers bi))
    (hbi : e.frame[s.from_]? = some bi0) :
    ∀ bi, header_frame (buffers bi) ((node_x1 e cpu s bi0 pc).buffers bi) ∧
      (bi ∉ e.frame.take (node_x1 e cpu s bi0 pc).from_ →
        (node_x1 e cpu s bi0 pc).buffers bi = buffers bi) := by
  intro bi
  have hfrom : (node_x1 e cpu s bi0 pc).from_ = s.from_ + 1 := rfl
  have htake : e.frame.take (s.from_ + 1) = e.frame.take s.from_ ++ [bi0] := by
    rw [List.take_succ, hbi]; rfl
  rw [hfrom, htake]
  by_cases hb : bi = bi0
  · subst hb
    constructor
    · have : (node_x1 e cpu s bi pc).buffers bi =
          { s.buffers bi with
            en := { (s.buffers bi).en with
              dst_address := (s.buffers bi).en.dst_address.set 0
                ((s.buffers bi).en.dst_address.getD 1 0) }
            sw_if_index_TX := (s.buffers bi).sw_if_index_RX } := by
        simp [node_x1, buffer_write]
      rw [this]
      exact header_frame_x1 _ _ _ (h bi).1
    · intro hn
      exact absurd (List.mem_append_right _ (List.mem_singleton.mpr rfl)) hn
  · have : (node_x1 e cpu s bi0 pc).buffers bi = s.buffers bi := by
      simp [node_x1, buffer_write, hb]
    rw [this]
    refine ⟨(h bi).1, fun hn => (h bi).2 (fun hm => hn (List.mem_append_left _ hm))⟩

theorem header_frame_step_x2 (e : node_env) (buffers : Nat → vlib_buffer_t)
    (s : node_state) (bi0 bi1 bi4 bi5 : Nat) (pc : fc_per_cpu_t)
    (h : ∀ bi, header_frame (buffers bi) (s.buffers bi) ∧
      (bi ∉ e.frame.take s.from_ → s.buffers bi = buffers bi))
    (h0 : e.frame[s.from_]? = some bi0) (h1 : e.frame[s.from_ + 1]? = some bi1) :
    ∀ bi, header_frame (buffers bi) ((ratelimiter_x2 e s bi0 bi1 bi4 bi5 pc).buffers bi) ∧
      (bi ∉ e.frame.take (ratelimiter_x2 e s bi0 bi1 bi4 bi5 pc).from_ →
        (ratelimiter_x2 e s bi0 bi1 bi4 bi5 pc).buffers bi = buffers bi) := by
  intro bi
  have hfrom : (ratelimiter_x2 e s bi0 bi1 bi4 bi5 pc).from_ = s.from_ + 2 := rfl
  rw [hfrom, take_two_more e.frame s.from_ bi0 bi1 h0 h1]
  have hbuf : (ratelimiter_x2 e s bi0 bi1 bi4 bi5 pc).buffers bi =
      if bi = bi1 then
        { (if bi1 = bi0 then
              { s.buffers bi0 with sw_if_index_TX := (s.buffers bi0).sw_if_index_RX }
            else s.buffers bi1) with sw_if_index_TX := (s.buffers bi1).sw_if_index_RX }
      else if bi = bi0 then
        { s.buffers bi0 with sw_if_index_TX := (s.buffers bi0).sw_if_index_RX }
      else s.buffers bi := by
    simp [ratelimiter_x2, buffer_write]
  rw [hbuf]
  by_cases hb1 : bi = bi1
  · subst hb1
    rw [if_pos rfl]
    constructor
    · by_cases hb0 : bi = bi0
      · subst hb0
        rw [if_pos rfl]
        exact header_frame_tx _ _ _ (header_frame_tx _ _ _ (h bi).1)
      · rw [if_neg hb0]
        exact header_frame_tx _ _ _ (h bi).1
    · intro hn
      exact absurd (List.mem_append_right _ (by simp)) hn
  · rw [if_neg hb1]
    by_cases hb0 : bi = bi0
    · subst hb0
      rw [if_pos rfl]
      refine ⟨header_frame_tx _ _ _ (h bi).1, fun hn => ?_⟩
      exact absurd (List.mem_append_right _ (by simp)) hn
    · rw [if_neg hb0]
      refine ⟨(h bi).1, fun hn => (h bi).2 (fun hm => hn (List.mem_append_left _ hm))⟩

/-- C10, as amended.  For both node functions and every buffer handle: after the run the
packet's IPv4 header, UDP header, Ethernet source address, Ethernet type, trace flag and
inbound interface are what they were before; its Ethernet destination address is either
what it was or has byte 0 overwritten with byte 1 (the write of the single-packet loop);
and a buffer whose handle is not in the frame is not written at all.  So the packet fields
written are the outbound interface and byte 0 of the Ethernet destination address. -/
theorem packet_writes_limited (e : node_env) (fuel : Nat) (per_cpu : List fc_per_cpu_t)
    (buffers : Nat → vlib_buffer_t) (hroom : ∀ k, 0 < e.room k)
    (hfuel : e.frame.length ≤ fuel) (hcpu : e.thread_index < per_cpu.length) :
    (∃ s, flowcounter_node e fuel per_cpu buffers = .ok (s, e.frame.length) ∧
      ∀ bi, header_frame (buffers bi) (s.buffers bi) ∧
        (bi ∉ e.frame → s.buffers bi = buffers bi)) ∧
    (∃ s, ratelimiter_node e fuel per_cpu buffers = .ok (s, e.frame.length) ∧
      ∀ bi, header_frame (buffers bi) (s.buffers bi) ∧
        (bi ∉ e.frame → s.buffers bi = buffers bi)) := by
  constructor
  · obtain ⟨s, hrun, hP, _, hfr⟩ :=
      flowcounter_node_inv e
        (fun s => ∀ bi, header_frame (buffers bi) (s.buffers bi) ∧
          (bi ∉ e.frame.take s.from_ → s.buffers bi = buffers bi))
        hroom (fun s h => h)
        (fun s bi0 pc h hbi _ => header_frame_step_x1 e 0 buffers s bi0 pc h hbi)
        fuel per_cpu buffers hfuel (by omega)
        (fun bi => ⟨header_frame_refl _, fun _ => rfl⟩)
    refine ⟨s, hrun, fun bi => ?_⟩
    have := hP bi
    rw [hfr, List.take_length] at this
    exact this
  · obtain ⟨s, hrun, hP, _, hfr⟩ :=
      ratelimiter_node_inv e
        (fun s => ∀ bi, header_frame (buffers bi) (s.buffers bi) ∧
          (bi ∉ e.frame.take s.from_ → s.buffers bi = buffers bi))
        hroom (fun s h => h)
        (fun s _ _ _ _ h _ _ _ _ _ => h)
        (fun s bi0 bi1 bi4 bi5 pc h _ h0 h1 _ _ _ =>
          header_frame_step_x2 e buffers s bi0 bi1 bi4 bi5 pc h h0 h1)
        (fun s bi0 pc h hbi _ => header_frame_step_x1 e e.thread_index buffers s bi0 pc h hbi)
        fuel per_cpu buffers hfuel hcpu
        (fun bi => ⟨header_frame_refl _, fun _ => rfl⟩)
    refine ⟨s, hrun, fun bi => ?_⟩
    have := hP bi
    rw [hfr, List.take_length] at this
    exact this

theorem packet_writes_limited_witness :
    (∀ k, 0 < (plain_env 1 eight_handles).room k) ∧
    (plain_env 1 eight_handles).frame.length ≤ 8 ∧
    (plain_env 1 eight_handles).thread_index < two_empty_cores.length ∧
    (∃ s, flowcounter_node (plain_env 1 eight_handles) 8 two_empty_cores one_flow_pool
        = .ok (s, (plain_env 1 eight_handles).frame.length) ∧
      ∀ bi, header_frame (one_flow_pool bi) (s.buffers bi) ∧
        (bi ∉ (plain_env 1 eight_handles).frame → s.buffers bi = one_flow_pool bi)) ∧
    (∃ s, ratelimiter_node (plain_env 1 eight_handles) 8 two_empty_cores one_flow_pool
        = .ok (s, (plain_env 1 eight_handles).frame.length) ∧
      ∀ bi, header_frame (one_flow_pool bi) (s.buffers bi) ∧
        (bi ∉ (plain_env 1 eight_handles).frame → s.buffers bi = one_flow_pool bi)) :=
  ⟨fun _ => (by decide : 0 < 256), by decide, by decide,
    packet_writes_limited (plain_env 1 eight_handles) 8 two_empty_cores one_flow_pool
      (fun _ => (by decide : 0 < 256)) (by decide) (by decide)⟩

/-- C10, the claim as stated fails: `flowcounter_node` run on one packet whose Ethernet
destination address is `1, 2, 3, 4, 5, 6` leaves the address `2, 2, 3, 4, 5, 6` in the
packet, so the raw header bytes are not the same after processing as before. -/
theorem packet_header_bytes_change :
    ∃ s, flowcounter_node (plain_env 0 [10]) 1 two_empty_cores one_flow_pool = .ok (s, 1) ∧
      (one_flow_pool 10).en.dst_address = [1, 2, 3, 4, 5, 6] ∧
      (s.buffers 10).en.dst_address = [2, 2, 3, 4, 5, 6] ∧
      (s.buffers 10).en ≠ (one_flow_pool 10).en :=
  ⟨_, rfl, rfl, rfl, by decide⟩

/-! ## C1, C3, C5: the paired loop of `ratelimiter_node` on eight packets of one flow -/

/-- C1.  Eight packets of the flow `(1, 2, 3, 4)` on a core whose table is empty, every
insertion succeeding, the locals `value0` and `value1` holding the zero record when they
are declared: `ratelimiter_node` returns with the stored count of the flow at `7` and with
`pkts_inserted = 2`, where the claim has `8` and `1`.  The paired loop hands the search the
hash of the packet's key together with `value0`, which holds no key of the packet, so both
packets of the pair are taken for new flows. -/
theorem ratelimiter_eight_same_flow_count :
    ∃ s pc, ratelimiter_node (plain_env 0 eight_handles) 8 two_empty_cores one_flow_pool
        = .ok (s, 8) ∧
      s.per_cpu[0]? = some pc ∧
      (∀ bi ∈ eight_handles, flow_key (one_flow_pool bi) = (4294967298, 196612)) ∧
      lookup sum_hash (empty_table 4 1024) (4294967298, 196612) = none ∧
      s.add_del_rv = [0, 0, 0, 0, 0, 0, 0, 0] ∧
      lookup sum_hash pc.hash_table (4294967298, 196612) = some 7 ∧
      s.pkts_inserted = 2 :=
  ⟨_, _, rfl, rfl, by decide, by decide, by decide, by decide, by decide⟩

/-- C3.  On the same eight packets the pipelined `ratelimiter_node` and the processor at
pipeline depth 1 disagree: the packets-processed total is `6` against `8` whatever the
unset locals hold, and with the zero record in them the new-flow total is `2` against `1`,
the stored count `7` against `8`, and the first packet keeps byte 0 of its Ethernet
destination address where depth 1 overwrites it. -/
theorem ratelimiter_pipelining_changes_result :
    (∀ u, ∃ s s1,
      ratelimiter_node (plain_env_with u 0 eight_handles) 8 two_empty_cores one_flow_pool
        = .ok (s, 8) ∧
      ratelimiter_node_depth1 (plain_env_with u 0 eight_handles) 8 two_empty_cores
        one_flow_pool = .ok (s1, 8) ∧
      s.pkts_swapped = 6 ∧ s1.pkts_swapped = 8) ∧
    (∃ s s1 pc pc1,
      ratelimiter_node (plain_env 0 eight_handles) 8 two_empty_cores one_flow_pool
        = .ok (s, 8) ∧
      ratelimiter_node_depth1 (plain_env 0 eight_handles) 8 two_empty_cores one_flow_pool
        = .ok (s1, 8) ∧
      s.per_cpu[0]? = some pc ∧ s1.per_cpu[0]? = some pc1 ∧
      s.pkts_inserted = 2 ∧ s1.pkts_inserted = 1 ∧
      lookup sum_hash pc.hash_table (4294967298, 196612) = some 7 ∧
      lookup sum_hash pc1.hash_table (4294967298, 196612) = some 8 ∧
      (s.buffers 10).en.dst_address = [1, 2, 3, 4, 5, 6] ∧
      (s1.buffers 10).en.dst_address = [2, 2, 3, 4, 5, 6]) :=
  ⟨fun _ => ⟨_, _, rfl, rfl, rfl, rfl⟩,
    ⟨_, _, _, _, rfl, rfl, rfl, rfl, by decide, by decide, by decide, by decide, by decide,
      by decide⟩⟩

/-- C5.  For a batch of eight packets, whatever the unset locals hold, `ratelimiter_node`
returns `8` and reports `pkts_swapped = 6`: the two packets taken by the paired loop are
not counted. -/
theorem ratelimiter_eight_packets_swapped :
    ∀ u, ∃ s,
      ratelimiter_node (plain_env_with u 0 eight_handles) 8 two_empty_cores one_flow_pool
        = .ok (s, 8) ∧
      s.to_next = eight_handles ∧ s.pkts_swapped = 6 :=
  fun _ => ⟨_, rfl, rfl, rfl⟩

/-! ## C8: `flowcounter_node` on a core other than core 0 -/

/-- C8.  `flowcounter_node` run on core 1 (`thread_index = 1`) over one packet, with two
cores that both have an empty table: afterwards the table of core 0 holds the packet's
flow with count `1` and the table of core 1 is still empty.  The invocation on core 1 has
written the table of core 0. -/
theorem flowcounter_writes_core_zero :
    ∃ s pcA pcB, flowcounter_node (plain_env 1 [10]) 1 two_empty_cores one_flow_pool
        = .ok (s, 1) ∧
      s.per_cpu[0]? = some pcA ∧ s.per_cpu[1]? = some pcB ∧
      lookup sum_hash (empty_table 4 1024) (flow_key (one_flow_pool 10)) = none ∧
      lookup sum_hash pcA.hash_table (flow_key (one_flow_pool 10)) = some 1 ∧
      lookup sum_hash pcB.hash_table (flow_key (one_flow_pool 10)) = none :=
  ⟨_, _, _, rfl, rfl, rfl, by decide, by decide, by decide⟩

/-! ## The table as a map -/

theorem bucket_search_store (kv : clib_bihash_kv_16_8_t) (k : Nat × Nat) :
    ∀ b, bucket_search k (bucket_store kv b)
      = if kv.key = k then some kv else bucket_search k b := by
  intro b
  induction b with
  | nil =>
    by_cases h : kv.key = k <;> simp [bucket_search, bucket_store, h]
  | cons r rs ih =>
    by_cases hr : r.key = kv.key
    · by_cases h : kv.key = k
      · simp [bucket_search, bucket_store, hr, h]
      · have : ¬ r.key = k := by rw [hr]; exact h
        simp [bucket_search, bucket_store, hr, h]
    · by_cases hk : r.key = k
      · subst hk
        have : ¬ kv.key = r.key := fun h => hr h.symm
        simp [bucket_search, bucket_store, hr, this]
      · have ih1 := ih
        simp only [bucket_search] at ih1
        simp [bucket_search, bucket_store, hr, hk, ih1]

theorem bucket_search_key (k : Nat × Nat) (b : List clib_bihash_kv_16_8_t)
    (r : clib_bihash_kv_16_8_t) (h : bucket_search k b = some r) : r.key = k := by
  have := List.find?_some h
  simpa using this

theorem search_16_8_lookup (hash : Nat × Nat → Nat) (h : clib_bihash_16_8_t)
    (key v : clib_bihash_kv_16_8_t) :
    ((clib_bihash_search_16_8 hash h key v).1 < 0 ↔ lookup hash h key.key = none) ∧
    (¬ (clib_bihash_search_16_8 hash h key v).1 < 0 →
      lookup hash h key.key = some (clib_bihash_search_16_8 hash h key v).2.value) := by
  unfold clib_bihash_search_16_8 lookup
  cases hs : bucket_search key.key (h.buckets (hash key.key % h.nbuckets)) with
  | none => simp
  | some r => simp

theorem lookup_add_del (hash : Nat × Nat → Nat) (h : clib_bihash_16_8_t)
    (kv : clib_bihash_kv_16_8_t) (hrv : (clib_bihash_add_del_16_8 hash h kv).2 = 0)
    (k : Nat × Nat) :
    lookup hash (clib_bihash_add_del_16_8 hash h kv).1 k
      = if kv.key = k then some kv.value else lookup hash h k := by
  have key : ∀ (m : Nat),
      lookup hash { h with memory_used := m,
                           buckets := fun j => if j = hash kv.key % h.nbuckets
                             then bucket_store kv (h.buckets (hash kv.key % h.nbuckets))
                             else h.buckets j } k
        = if kv.key = k then some kv.value else lookup hash h k := by
    intro m
    unfold lookup
    by_cases hk : kv.key = k
    · subst hk
      simp [bucket_search_store]
    · by_cases hj : hash k % h.nbuckets = hash kv.key % h.nbuckets
      · simp [hj, bucket_search_store, hk]
      · simp [hj, hk]
  unfold clib_bihash_add_del_16_8 clib_bihash_add_del_with_hash_16_8 at hrv ⊢
  cases hs : bucket_search kv.key (h.buckets (hash kv.key % h.nbuckets)) with
  | some r =>
    simp only [hs]
    exact key h.memory_used
  | none =>
    simp only [hs] at hrv ⊢
    by_cases hm : h.memory_used + kv_bytes ≤ h.memory_size
    · simp only [hm, if_true]
      exact key (h.memory_used + kv_bytes)
    · simp [hm] at hrv

theorem counted_succ (c : Option Nat) (m : Nat) :
    counted c (m + 1) = some (next_count (counted c m)) := by
  unfold counted
  by_cases hm : m = 0
  · subst hm
    cases c <;> simp [next_count]
  · simp only [hm, if_false, Nat.succ_ne_zero, next_count]
    congr 1
    omega

theorem counted_eq_none (c : Option Nat) (m : Nat) :
    counted c m = none ↔ m = 0 ∧ c = none := by
  unfold counted
  by_cases hm : m = 0 <;> simp [hm]

theorem new_flows_append (hash : Nat × Nat → Nat) (h : clib_bihash_16_8_t)
    (l : List (Nat × Nat)) (k : Nat × Nat) :
    new_flows hash h (l ++ [k])
      = new_flows hash h l + (if k ∉ l ∧ lookup hash h k = none then 1 else 0) := by
  unfold new_flows
  have hfin : (l ++ [k]).toFinset = insert k l.toFinset := by
    ext x
    simp [or_comm]
  rw [hfin]
  by_cases hk : k ∈ l
  · have : insert k l.toFinset = l.toFinset :=
      Finset.insert_eq_of_mem (List.mem_toFinset.mpr hk)
    simp [this, hk]
  · by_cases hn : lookup hash h k = none
    · rw [Finset.filter_insert, if_pos hn, Finset.card_insert_of_not_mem]
      · simp [hk, hn]
      · intro hmem
        exact hk (List.mem_toFinset.mp (Finset.mem_filter.mp hmem).1)
    · rw [Finset.filter_insert, if_neg hn]
      simp [hn]

theorem new_flows_le (hash : Nat × Nat → Nat) (h : clib_bihash_16_8_t)
    (l : List (Nat × Nat)) : new_flows hash h l ≤ l.length :=
  le_trans (Finset.card_filter_le _ _) (List.toFinset_card_le l)

/-- What one pass of the single-packet loop does to the table, the log of insertion
results and the new-flow counter, in terms of the table read as a map. -/
theorem node_x1_effect (e : node_env) (cpu : Nat) (s : node_state) (bi0 : Nat)
    (pc : fc_per_cpu_t) :
    ∃ T1 rv, (node_x1 e cpu s bi0 pc).per_cpu = s.per_cpu.set cpu ⟨T1⟩ ∧
      (node_x1 e cpu s bi0 pc).add_del_rv = s.add_del_rv ++ [rv] ∧
      (node_x1 e cpu s bi0 pc).pkts_inserted
        = (if lookup e.hash pc.hash_table (flow_key (s.buffers bi0)) = none
            then (s.pkts_inserted + 1) % 2 ^ 32 else s.pkts_inserted) ∧
      (rv = 0 → ∀ k, lookup e.hash T1 k
        = if flow_key (s.buffers bi0) = k
            then some (next_count (lookup e.hash pc.hash_table (flow_key (s.buffers bi0))))
            else lookup e.hash pc.hash_table k) := by
  have hs := search_16_8_lookup e.hash pc.hash_table
    (get_hash_key (s.buffers bi0).ip4 (s.buffers bi0).udp) (e.uninit s.from_)
  have hkey : (get_hash_key (s.buffers bi0).ip4 (s.buffers bi0).udp).key
      = flow_key (s.buffers bi0) := rfl
  rw [hkey] at hs
  by_cases hf : (clib_bihash_search_16_8 e.hash pc.hash_table
      (get_hash_key (s.buffers bi0).ip4 (s.buffers bi0).udp) (e.uninit s.from_)).1 < 0
  · have hnone := hs.1.mp hf
    refine ⟨(clib_bihash_add_del_16_8 e.hash pc.hash_table
        { get_hash_key (s.buffers bi0).ip4 (s.buffers bi0).udp with value := 1 }).1,
      (clib_bihash_add_del_16_8 e.hash pc.hash_table
        { get_hash_key (s.buffers bi0).ip4 (s.buffers bi0).udp with value := 1 }).2,
      ?_, ?_, ?_, ?_⟩
    · simp only [node_x1, hf, if_true]
    · simp only [node_x1, hf, if_true]
    · simp only [node_x1, hf, if_true, hnone]
    · intro hrv k
      rw [lookup_add_del e.hash pc.hash_table _ hrv k, hnone]
      rfl
  · have hsome := hs.2 hf
    refine ⟨(clib_bihash_add_del_16_8 e.hash pc.hash_table
        { get_hash_key (s.buffers bi0).ip4 (s.buffers bi0).udp with
          value := ((clib_bihash_search_16_8 e.hash pc.hash_table
            (get_hash_key (s.buffers bi0).ip4 (s.buffers bi0).udp)
            (e.uninit s.from_)).2.value + 1) % 2 ^ 64 }).1,
      (clib_bihash_add_del_16_8 e.hash pc.hash_table
        { get_hash_key (s.buffers bi0).ip4 (s.buffers bi0).udp with
          value := ((clib_bihash_search_16_8 e.hash pc.hash_table
            (get_hash_key (s.buffers bi0).ip4 (s.buffers bi0).udp)
            (e.uninit s.from_)).2.value + 1) % 2 ^ 64 }).2,
      ?_, ?_, ?_, ?_⟩
    · simp only [node_x1, hf, if_false]
    · simp only [node_x1, hf, if_false]
    · simp only [node_x1, hf, if_false, hsome]
      simp
    · intro hrv k
      rw [lookup_add_del e.hash pc.hash_table _ hrv k, hsome]
      rfl

/-! ## C2 and C6: what `flowcounter_node` counts -/

theorem batch_keys_take_succ (buffers : Nat → vlib_buffer_t) (frame : List Nat) (n bi0 : Nat)
    (h : frame[n]? = some bi0) :
    batch_keys buffers (frame.take (n + 1))
      = batch_keys buffers (frame.take n) ++ [flow_key (buffers bi0)] := by
  unfold batch_keys
  rw [List.take_succ, h]
  simp

/-- The table and the new-flow counter of `flowcounter_node` after a run all of whose
insertions succeeded, in terms of the keys of the batch. -/
theorem flowcounter_node_counts (e : node_env) (fuel : Nat) (per_cpu : List fc_per_cpu_t)
    (buffers : Nat → vlib_buffer_t) (pc0 : fc_per_cpu_t) (hroom : ∀ k, 0 < e.room k)
    (hfuel : e.frame.length ≤ fuel) (h0 : per_cpu[0]? = some pc0) :
    ∃ s, flowcounter_node e fuel per_cpu buffers = .ok (s, e.frame.length) ∧
      (s.add_del_rv.all (fun rv => decide (rv = 0)) = true →
        ∃ pc : fc_per_cpu_t, s.per_cpu[0]? = some pc ∧
          (∀ k, lookup e.hash pc.hash_table k
            = counted (lookup e.hash pc0.hash_table k)
                ((batch_keys buffers e.frame).count k)) ∧
          s.pkts_inserted
            = new_flows e.hash pc0.hash_table (batch_keys buffers e.frame) % 2 ^ 32) := by
  have hlen0 : 0 < per_cpu.length := by
    rcases Nat.lt_or_ge 0 per_cpu.length with h | h
    · exact h
    · rw [List.getElem?_eq_none h] at h0
      exact absurd h0 (by simp)
  obtain ⟨s, hrun, hP, _, hfr⟩ :=
    flowcounter_node_inv e
      (fun s => 0 < s.per_cpu.length ∧
        (∀ bi, flow_key (s.buffers bi) = flow_key (buffers bi)) ∧
        (s.add_del_rv.all (fun rv => decide (rv = 0)) = true →
          ∃ pc : fc_per_cpu_t, s.per_cpu[0]? = some pc ∧
            (∀ k, lookup e.hash pc.hash_table k
              = counted (lookup e.hash pc0.hash_table k)
                  ((batch_keys buffers (e.frame.take s.from_)).count k)) ∧
            s.pkts_inserted
              = new_flows e.hash pc0.hash_table
                  (batch_keys buffers (e.frame.take s.from_)) % 2 ^ 32))
      hroom (fun s h => h)
      (fun s bi0 pc h hbi hpc => by
        obtain ⟨hl, hk, htab⟩ := h
        obtain ⟨T1, rv, e1, e2, e3, e4⟩ := node_x1_effect e 0 s bi0 pc
        refine ⟨by rw [e1, List.length_set]; exact hl, ?_, ?_⟩
        · intro bi
          rw [← hk bi]
          by_cases hb : bi = bi0
          · subst hb
            simp [node_x1, buffer_write, flow_key]
          · simp [node_x1, buffer_write, hb]
        · intro hall
          rw [e2, List.all_append] at hall
          simp only [Bool.and_eq_true, List.all_cons, List.all_nil, Bool.and_true,
            decide_eq_true_eq] at hall
          obtain ⟨hold, hrv⟩ := hall
          obtain ⟨pc1, hpc1, hmap, hins⟩ := htab (by simpa using hold)
          have hpceq : pc1 = pc := by
            rw [hpc] at hpc1
            exact (Option.some.inj hpc1).symm
          subst hpceq
          have hfrom : (node_x1 e 0 s bi0 pc1).from_ = s.from_ + 1 := rfl
          rw [hfrom, batch_keys_take_succ buffers e.frame s.from_ bi0 hbi]
          refine ⟨⟨T1⟩, by rw [e1]; exact List.getElem?_set_self hl, ?_, ?_⟩
          · intro k
            show lookup e.hash T1 k = _
            rw [e4 hrv k, hk bi0, List.count_append, List.count_singleton]
            by_cases hkk : flow_key (buffers bi0) = k
            · subst hkk
              simp only [if_true, beq_self_eq_true]
              rw [counted_succ, hmap]
            · have hne : (flow_key (buffers bi0) == k) = false := by simpa using hkk
              simp only [hkk, if_false, hne, Bool.false_eq_true, Nat.add_zero]
              exact hmap k
          · rw [e3, hk bi0, hmap, new_flows_append, hins]
            have hiff : (counted (lookup e.hash pc0.hash_table (flow_key (buffers bi0)))
                  ((batch_keys buffers (e.frame.take s.from_)).count
                    (flow_key (buffers bi0))) = none)
                ↔ (flow_key (buffers bi0) ∉ batch_keys buffers (e.frame.take s.from_) ∧
                    lookup e.hash pc0.hash_table (flow_key (buffers bi0)) = none) := by
              rw [counted_eq_none, List.count_eq_zero]
            by_cases hc : counted (lookup e.hash pc0.hash_table (flow_key (buffers bi0)))
                  ((batch_keys buffers (e.frame.take s.from_)).count
                    (flow_key (buffers bi0))) = none
            · rw [if_pos hc, if_pos (hiff.mp hc)]
              omega
            · rw [if_neg hc, if_neg (fun h => hc (hiff.mpr h))]
              omega)
      fuel per_cpu buffers hfuel hlen0
      ⟨hlen0, fun _ => rfl, fun _ =>
        ⟨pc0, h0, fun k => by simp [node_entry, batch_keys, counted],
          by simp [node_entry, batch_keys, new_flows]⟩⟩
  refine ⟨s, hrun, fun hall => ?_⟩
  obtain ⟨pc, hpc, hmap, hins⟩ := hP.2.2 hall
  rw [hfr, List.take_length] at hmap hins
  exact ⟨pc, hpc, hmap, hins⟩

theorem insertions_succeed_ok (r : Except node_fault (node_state × Nat)) (s : node_state)
    (n : Nat) (hr : r = .ok (s, n)) (h : insertions_succeed r = true) :
    s.add_del_rv.all (fun rv => decide (rv = 0)) = true := by
  subst hr
  exact h

/-- C2.  Per-key counting of `flowcounter_node`.  The node works on the table `T` of
`per_cpu[0]`.  For every initial `T` and every batch, if the run's insertions all
succeed, then the node returns and the table `T'` it leaves satisfies, for every key `k`
derived by `m` packets of the batch: `T' (k) = T (k)` when `m = 0` (an absent key stays
absent), and `T' (k) = (c + m) mod 2^64` when `m ≥ 1`, with `c = T (k)` for a key that was
present and `c = 0` for one that was absent.  In particular a batch of a single packet
whose key `T` does not hold leaves that key with count `1`. -/
theorem flowcounter_per_key_count (e : node_env) (fuel : Nat) (per_cpu : List fc_per_cpu_t)
    (buffers : Nat → vlib_buffer_t) (pc0 : fc_per_cpu_t) (hroom : ∀ k, 0 < e.room k)
    (hfuel : e.frame.length ≤ fuel) (h0 : per_cpu[0]? = some pc0)
    (hsucc : insertions_succeed (flowcounter_node e fuel per_cpu buffers) = true) :
    ∃ s pc, flowcounter_node e fuel per_cpu buffers = .ok (s, e.frame.length) ∧
      s.per_cpu[0]? = some pc ∧
      (∀ k m, (batch_keys buffers e.frame).count k = m →
        (m = 0 → lookup e.hash pc.hash_table k = lookup e.hash pc0.hash_table k) ∧
        (1 ≤ m → lookup e.hash pc.hash_table k
          = some (((lookup e.hash pc0.hash_table k).getD 0 + m) % 2 ^ 64))) ∧
      (∀ bi, e.frame = [bi] → lookup e.hash pc0.hash_table (flow_key (buffers bi)) = none →
        lookup e.hash pc.hash_table (flow_key (buffers bi)) = some 1) := by
  obtain ⟨s, hrun, h⟩ := flowcounter_node_counts e fuel per_cpu buffers pc0 hroom hfuel h0
  obtain ⟨pc, hpc, hmap, _⟩ := h (insertions_succeed_ok _ s _ hrun hsucc)
  refine ⟨s, pc, hrun, hpc, fun k m hm => ?_, fun bi hbi hnone => ?_⟩
  · rw [hmap k, hm]
    constructor
    · intro hz
      simp [counted, hz]
    · intro hpos
      have : m ≠ 0 := by omega
      simp [counted, this]
  · rw [hmap, hbi, hnone]
    simp [batch_keys, counted]

theorem flowcounter_per_key_count_witness :
    (∀ k, 0 < (plain_env 0 [10]).room k) ∧
    (plain_env 0 [10]).frame.length ≤ 1 ∧
    two_empty_cores[0]? = some ⟨empty_table 4 1024⟩ ∧
    insertions_succeed (flowcounter_node (plain_env 0 [10]) 1 two_empty_cores one_flow_pool)
      = true ∧
    lookup sum_hash (empty_table 4 1024) (flow_key (one_flow_pool 10)) = none ∧
    ∃ s pc, flowcounter_node (plain_env 0 [10]) 1 two_empty_cores one_flow_pool
        = .ok (s, 1) ∧
      s.per_cpu[0]? = some pc ∧
      lookup sum_hash pc.hash_table (flow_key (one_flow_pool 10)) = some 1 := by
  refine ⟨fun _ => (by decide : 0 < 256), by decide, rfl, by decide, by decide, ?_⟩
  obtain ⟨s, pc, hrun, hpc, h⟩ :=
    flowcounter_per_key_count (plain_env 0 [10]) 1 two_empty_cores one_flow_pool
      ⟨empty_table 4 1024⟩ (fun _ => (by decide : 0 < 256)) (by decide) rfl (by decide)
  exact ⟨s, pc, hrun, hpc,
    ((h.1 (flow_key (one_flow_pool 10)) 1 (by decide)).2 (by decide)).trans (by decide)⟩

/-- C6.  New-flow counter of `flowcounter_node`.  For every initial table `T` (that of
`per_cpu[0]`) and every batch, if the run's insertions all succeed, then the node returns
with `pkts_inserted` equal to the number of distinct FlowKeys of the batch that `T` does
not hold.  The counter is a `u32`; a frame has fewer than `2^32` packets, its `n_vectors`
being a `u16`. -/
theorem flowcounter_new_flow_total (e : node_env) (fuel : Nat) (per_cpu : List fc_per_cpu_t)
    (buffers : Nat → vlib_buffer_t) (pc0 : fc_per_cpu_t) (hroom : ∀ k, 0 < e.room k)
    (hfuel : e.frame.length ≤ fuel) (h0 : per_cpu[0]? = some pc0)
    (hsucc : insertions_succeed (flowcounter_node e fuel per_cpu buffers) = true)
    (hlen : e.frame.length < 2 ^ 32) :
    ∃ s, flowcounter_node e fuel per_cpu buffers = .ok (s, e.frame.length) ∧
      s.pkts_inserted
        = ((batch_keys buffers e.frame).toFinset.filter
            (fun k => lookup e.hash pc0.hash_table k = none)).card := by
  obtain ⟨s, hrun, h⟩ := flowcounter_node_counts e fuel per_cpu buffers pc0 hroom hfuel h0
  obtain ⟨pc, _, _, hins⟩ := h (insertions_succeed_ok _ s _ hrun hsucc)
  refine ⟨s, hrun, ?_⟩
  have hle := new_flows_le e.hash pc0.hash_table (batch_keys buffers e.frame)
  have hl : (batch_keys buffers e.frame).length = e.frame.length := by simp [batch_keys]
  rw [hins]
  show new_flows e.hash pc0.hash_table (batch_keys buffers e.frame) % 2 ^ 32
    = new_flows e.hash pc0.hash_table (batch_keys buffers e.frame)
  apply Nat.mod_eq_of_lt
  omega

theorem flowcounter_new_flow_total_witness :
    (∀ k, 0 < (plain_env 0 [0, 1, 3, 2]).room k) ∧
    (plain_env 0 [0, 1, 3, 2]).frame.length ≤ 4 ∧
    two_empty_cores[0]? = some ⟨empty_table 4 1024⟩ ∧
    insertions_succeed
      (flowcounter_node (plain_env 0 [0, 1, 3, 2]) 4 two_empty_cores three_flow_pool)
      = true ∧
    (plain_env 0 [0, 1, 3, 2]).frame.length < 2 ^ 32 ∧
    ∃ s, flowcounter_node (plain_env 0 [0, 1, 3, 2]) 4 two_empty_cores three_flow_pool
        = .ok (s, 4) ∧
      s.pkts_inserted = 3 := by
  refine ⟨fun _ => (by decide : 0 < 256), by decide, rfl, by decide, by decide, ?_⟩
  obtain ⟨s, hrun, h⟩ :=
    flowcounter_new_flow_total (plain_env 0 [0, 1, 3, 2]) 4 two_empty_cores three_flow_pool
      ⟨empty_table 4 1024⟩ (fun _ => (by decide : 0 < 256)) (by decide) rfl (by decide)
      (by decide)
  exact ⟨s, hrun, h.trans (by decide)⟩

/-! ## The run of a core does not read the entries of the other cores -/

theorem agree_off_cores_eq (cpu : Nat) (s t : node_state) (h : agree_off_cores cpu s t) :
    t = { s with per_cpu := t.per_cpu } := by
  obtain ⟨_, h2⟩ := h
  cases s
  cases t
  simp only [node_state.mk.injEq, true_and] at h2
  obtain ⟨a1, a2, a3, a4, a5, a6, a7, a8, a9, a10, a11, a12, a13, a14, a15, a16, a17, a18,
    a19, a20, a21, a22⟩ := h2
  subst a1 a2 a3 a4 a5 a6 a7 a8 a9 a10 a11 a12 a13 a14 a15 a16 a17 a18 a19 a20 a21 a22
  rfl

theorem agree_off_cores_x1 (e : node_env) (cpu : Nat) (s t : node_state) (bi0 : Nat)
    (pc : fc_per_cpu_t) (h : agree_off_cores cpu s t) :
    agree_off_cores cpu (node_x1 e cpu s bi0 pc) (node_x1 e cpu t bi0 pc) := by
  have ht := agree_off_cores_eq cpu s t h
  have h1 := h.1
  rw [ht]
  constructor
  · show (s.per_cpu.set cpu _)[cpu]? = (t.per_cpu.set cpu _)[cpu]?
    rw [List.getElem?_set_self', List.getElem?_set_self', ← h1]
  · rfl

theorem agree_off_cores_x2 (e : node_env) (s t : node_state) (bi0 bi1 bi4 bi5 : Nat)
    (pc : fc_per_cpu_t) (h : agree_off_cores e.thread_index s t) :
    agree_off_cores e.thread_index (ratelimiter_x2 e s bi0 bi1 bi4 bi5 pc)
      (ratelimiter_x2 e t bi0 bi1 bi4 bi5 pc) := by
  have ht := agree_off_cores_eq e.thread_index s t h
  have h1 := h.1
  rw [ht]
  constructor
  · show (s.per_cpu.set e.thread_index _)[e.thread_index]?
      = (t.per_cpu.set e.thread_index _)[e.thread_index]?
    rw [List.getElem?_set_self', List.getElem?_set_self', ← h1]
  · rfl

theorem agree_off_cores_x1_body (e : node_env) (cpu : Nat) (s t : node_state)
    (h : agree_off_cores cpu s t) :
    agree_off_cores_result cpu (node_x1_body e cpu s) (node_x1_body e cpu t) := by
  have ht := agree_off_cores_eq cpu s t h
  have h1 := h.1
  have f1 : t.n_left_from = s.n_left_from := by rw [ht]
  have f2 : t.n_left_to_next = s.n_left_to_next := by rw [ht]
  have f3 : t.from_ = s.from_ := by rw [ht]
  unfold node_x1_body
  rw [f1, f2, f3, ← h1]
  by_cases hg : s.n_left_from < 1 ∨ s.n_left_to_next < 1
  · simp only [hg, if_true, agree_off_cores_result]
  · simp only [hg, if_false]
    cases hfr : e.frame[s.from_]? with
    | none => simp [agree_off_cores_result]
    | some bi0 =>
      cases hpc : s.per_cpu[cpu]? with
      | none => simp [agree_off_cores_result]
      | some pc =>
        simp only [agree_off_cores_result]
        exact agree_off_cores_x1 e cpu s t bi0 pc h

theorem agree_off_cores_x1_loop (e : node_env) (cpu : Nat) :
    ∀ fuel s t, agree_off_cores cpu s t →
      agree_off_cores_result cpu (node_x1_loop e cpu fuel s) (node_x1_loop e cpu fuel t) := by
  intro fuel
  induction fuel with
  | zero =>
    intro s t h
    have ht := agree_off_cores_eq cpu s t h
    have f1 : t.n_left_from = s.n_left_from := by rw [ht]
    have f2 : t.n_left_to_next = s.n_left_to_next := by rw [ht]
    unfold node_x1_loop
    rw [f1, f2]
    by_cases hg : 0 < s.n_left_from ∧ 0 < s.n_left_to_next
    · simp only [hg, and_self, if_true, agree_off_cores_result]
    · simp only [hg, if_false, agree_off_cores_result]
      exact h
  | succ n ih =>
    intro s t h
    have ht := agree_off_cores_eq cpu s t h
    have f1 : t.n_left_from = s.n_left_from := by rw [ht]
    have f2 : t.n_left_to_next = s.n_left_to_next := by rw [ht]
    have hb := agree_off_cores_x1_body e cpu s t h
    unfold node_x1_loop
    rw [f1, f2]
    by_cases hg : 0 < s.n_left_from ∧ 0 < s.n_left_to_next
    · simp only [hg, and_self, if_true]
      cases h1 : node_x1_body e cpu s with
      | error a =>
        cases h2 : node_x1_body e cpu t with
        | error b =>
          rw [h1, h2] at hb
          simpa [agree_off_cores_result] using hb
        | ok t1 =>
          rw [h1, h2] at hb
          simp [agree_off_cores_result] at hb
      | ok s1 =>
        cases h2 : node_x1_body e cpu t with
        | error b =>
          rw [h1, h2] at hb
          simp [agree_off_cores_result] at hb
        | ok t1 =>
          rw [h1, h2] at hb
          exact ih s1 t1 hb
    · simp only [hg, if_false, agree_off_cores_result]
      exact h

theorem agree_off_cores_bind (cpu : Nat) (f g : node_state → Except node_fault node_state)
    (r1 r2 : Except node_fault node_state) :
    agree_off_cores_result cpu r1 r2 →
    (∀ s t, agree_off_cores cpu s t → agree_off_cores_result cpu (f s) (g t)) →
    agree_off_cores_result cpu
      (match r1 with
        | .ok s => f s
        | .error a => .error a)
      (match r2 with
        | .ok t => g t
        | .error b => .error b) := by
  intro hr hfg
  cases r1 with
  | error a =>
    cases r2 with
    | error b => simpa [agree_off_cores_result] using hr
    | ok t => simp [agree_off_cores_result] at hr
  | ok s =>
    cases r2 with
    | error b => simp [agree_off_cores_result] at hr
    | ok t => exact hfg s t hr

theorem agree_off_cores_prime_body (e : node_env) (s t : node_state)
    (h : agree_off_cores e.thread_index s t) :
    agree_off_cores_result e.thread_index (ratelimiter_prime_body e s)
      (ratelimiter_prime_body e t) := by
  have ht := agree_off_cores_eq e.thread_index s t h
  have f3 : t.from_ = s.from_ := by rw [ht]
  unfold ratelimiter_prime_body
  rw [f3]
  cases h0 : e.frame[s.from_]? <;> cases h1 : e.frame[s.from_ + 1]? <;>
    cases h2 : e.frame[s.from_ + 2]? <;> cases h3 : e.frame[s.from_ + 3]? <;>
    simp only [agree_off_cores_result]
  rw [ht]
  exact ⟨h.1, rfl⟩

theorem agree_off_cores_x2_body (e : node_env) (s t : node_state)
    (h : agree_off_cores e.thread_index s t) :
    agree_off_cores_result e.thread_index (ratelimiter_x2_body e s)
      (ratelimiter_x2_body e t) := by
  have ht := agree_off_cores_eq e.thread_index s t h
  have h1 := h.1
  have f1 : t.n_left_from = s.n_left_from := by rw [ht]
  have f2 : t.n_left_to_next = s.n_left_to_next := by rw [ht]
  have f3 : t.from_ = s.from_ := by rw [ht]
  unfold ratelimiter_x2_body
  rw [f1, f2, f3, ← h1]
  by_cases hg : s.n_left_from < 2 ∨ s.n_left_to_next < 2
  · simp only [hg, if_true, agree_off_cores_result]
  · simp only [hg, if_false]
    cases k0 : e.frame[s.from_]? <;> cases k1 : e.frame[s.from_ + 1]? <;>
      cases k4 : e.frame[s.from_ + 4]? <;> cases k5 : e.frame[s.from_ + 5]? <;>
      cases k6 : e.frame[s.from_ + 6]? <;> cases k7 : e.frame[s.from_ + 7]? <;>
      cases kp : s.per_cpu[e.thread_index]? <;>
      simp only [agree_off_cores_result]
    exact agree_off_cores_x2 e s t _ _ _ _ _ h

theorem agree_off_cores_x2_loop (e : node_env) :
    ∀ fuel s t, agree_off_cores e.thread_index s t →
      agree_off_cores_result e.thread_index (ratelimiter_x2_loop e fuel s)
        (ratelimiter_x2_loop e fuel t) := by
  intro fuel
  induction fuel with
  | zero =>
    intro s t h
    have ht := agree_off_cores_eq e.thread_index s t h
    have f1 : t.n_left_from = s.n_left_from := by rw [ht]
    have f2 : t.n_left_to_next = s.n_left_to_next := by rw [ht]
    unfold ratelimiter_x2_loop
    rw [f1, f2]
    by_cases hg : 8 ≤ s.n_left_from ∧ 2 ≤ s.n_left_to_next
    · simp only [hg, and_self, if_true, agree_off_cores_result]
    · simp only [hg, if_false, agree_off_cores_result]
      exact h
  | succ n ih =>
    intro s t h
    have ht := agree_off_cores_eq e.thread_index s t h
    have f1 : t.n_left_from = s.n_left_from := by rw [ht]
    have f2 : t.n_left_to_next = s.n_left_to_next := by rw [ht]
    unfold ratelimiter_x2_loop
    rw [f1, f2]
    by_cases hg : 8 ≤ s.n_left_from ∧ 2 ≤ s.n_left_to_next
    · simp only [hg, and_self, if_true]
      exact agree_off_cores_bind e.thread_index _ _ _ _
        (agree_off_cores_x2_body e s t h) ih
    · simp only [hg, if_false, agree_off_cores_result]
      exact h

theorem agree_off_cores_get (e : node_env) (cpu : Nat) (s t : node_state)
    (h : agree_off_cores cpu s t) :
    agree_off_cores cpu (vlib_get_next_frame e s) (vlib_get_next_frame e t) := by
  have ht := agree_off_cores_eq cpu s t h
  rw [ht]
  exact ⟨h.1, rfl⟩

theorem agree_off_cores_outer_body (e : node_env) (fuel0 : Nat) (s t : node_state)
    (h : agree_off_cores e.thread_index s t) :
    agree_off_cores_result e.thread_index (ratelimiter_outer_body e fuel0 s)
      (ratelimiter_outer_body e fuel0 t) := by
  have hg := agree_off_cores_get e e.thread_index s t h
  have ht := agree_off_cores_eq e.thread_index _ _ hg
  have f1 : (vlib_get_next_frame e t).n_left_from = (vlib_get_next_frame e s).n_left_from := by
    rw [ht]
  have f2 : (vlib_get_next_frame e t).n_left_to_next
      = (vlib_get_next_frame e s).n_left_to_next := by
    rw [ht]
  unfold ratelimiter_outer_body
  simp only []
  rw [f1, f2]
  apply agree_off_cores_bind
  · by_cases hp : 8 ≤ (vlib_get_next_frame e s).n_left_from ∧
        2 ≤ (vlib_get_next_frame e s).n_left_to_next
    · simp only [hp, and_self, if_true]
      exact agree_off_cores_prime_body e _ _ hg
    · simp only [hp, if_false, agree_off_cores_result]
      exact hg
  · intro s2 t2 h2
    apply agree_off_cores_bind
    · exact agree_off_cores_x2_loop e fuel0 s2 t2 h2
    · intro s3 t3 h3
      exact agree_off_cores_x1_loop e e.thread_index fuel0 s3 t3 h3

theorem agree_off_cores_outer (e : node_env) (fuel0 : Nat) :
    ∀ fuel s t, agree_off_cores e.thread_index s t →
      agree_off_cores_result e.thread_index (ratelimiter_outer e fuel0 fuel s)
        (ratelimiter_outer e fuel0 fuel t) := by
  intro fuel
  induction fuel with
  | zero =>
    intro s t h
    have ht := agree_off_cores_eq e.thread_index s t h
    have f1 : t.n_left_from = s.n_left_from := by rw [ht]
    unfold ratelimiter_outer
    rw [f1]
    by_cases hg : 0 < s.n_left_from
    · simp only [hg, if_true, agree_off_cores_result]
    · simp only [hg, if_false, agree_off_cores_result]
      exact h
  | succ n ih =>
    intro s t h
    have ht := agree_off_cores_eq e.thread_index s t h
    have f1 : t.n_left_from = s.n_left_from := by rw [ht]
    unfold ratelimiter_outer
    rw [f1]
    by_cases hg : 0 < s.n_left_from
    · simp only [hg, if_true]
      exact agree_off_cores_bind e.thread_index _ _ _ _
        (agree_off_cores_outer_body e fuel0 s t h) ih
    · simp only [hg, if_false, agree_off_cores_result]
      exact h

theorem ratelimiter_node_off_cores (e : node_env) (fuel : Nat)
    (per_cpu per_cpu1 : List fc_per_cpu_t) (buffers : Nat → vlib_buffer_t)
    (s : node_state) (n : Nat)
    (hsame : per_cpu1[e.thread_index]? = per_cpu[e.thread_index]?)
    (hrun : ratelimiter_node e fuel per_cpu buffers = .ok (s, n)) :
    ∃ s1, ratelimiter_node e fuel per_cpu1 buffers = .ok (s1, n) ∧
      agree_off_cores e.thread_index s s1 := by
  have hentry : agree_off_cores e.thread_index (node_entry e per_cpu buffers)
      (node_entry e per_cpu1 buffers) := ⟨hsame.symm, rfl⟩
  have hsim := agree_off_cores_outer e fuel fuel _ _ hentry
  unfold ratelimiter_node at hrun ⊢
  rw [hsame]
  cases hpc : per_cpu[e.thread_index]? with
  | none => simp [hpc] at hrun
  | some pc =>
    simp only [hpc] at hrun ⊢
    cases h1 : ratelimiter_outer e fuel fuel (node_entry e per_cpu buffers) with
    | error a => simp [h1] at hrun
    | ok s0 =>
      simp only [h1, Except.ok.injEq, Prod.mk.injEq] at hrun
      obtain ⟨hs, hn⟩ := hrun
      subst hs
      cases h2 : ratelimiter_outer e fuel fuel (node_entry e per_cpu1 buffers) with
      | error b =>
        rw [h1, h2] at hsim
        simp [agree_off_cores_result] at hsim
      | ok s1 =>
        rw [h1, h2] at hsim
        exact ⟨s1, by rw [hn], hsim⟩

/-! ## C9: `ratelimiter_node` stays on the table of its own core -/

/-- C9.  Core isolation of `ratelimiter_node`.  The run on core `B = thread_index`
returns; for every other index `A` the entry `per_cpu[A]` is afterwards what it was
before, and `per_cpu` keeps its length; and the run reads no other entry than
`per_cpu[B]`: started on any vector `per_cpu1` with the same entry at `B`, it returns the
same entry at `B`, the same output, buffers, counters and insertion results. -/
theorem ratelimiter_core_isolation (e : node_env) (fuel : Nat) (per_cpu : List fc_per_cpu_t)
    (buffers : Nat → vlib_buffer_t) (hroom : ∀ k, 0 < e.room k)
    (hfuel : e.frame.length ≤ fuel) (hcpu : e.thread_index < per_cpu.length) :
    ∃ s, ratelimiter_node e fuel per_cpu buffers = .ok (s, e.frame.length) ∧
      s.per_cpu.length = per_cpu.length ∧
      (∀ A, A ≠ e.thread_index → s.per_cpu[A]? = per_cpu[A]?) ∧
      (∀ per_cpu1 : List fc_per_cpu_t,
        per_cpu1[e.thread_index]? = per_cpu[e.thread_index]? →
        ∃ s1, ratelimiter_node e fuel per_cpu1 buffers = .ok (s1, e.frame.length) ∧
          s1.per_cpu[e.thread_index]? = s.per_cpu[e.thread_index]? ∧
          s1.to_next = s.to_next ∧ s1.buffers = s.buffers ∧
          s1.pkts_swapped = s.pkts_swapped ∧ s1.pkts_inserted = s.pkts_inserted ∧
          s1.add_del_rv = s.add_del_rv) := by
  obtain ⟨s, hrun, hP, _, _⟩ :=
    ratelimiter_node_inv e
      (fun s => s.per_cpu.length = per_cpu.length ∧
        ∀ A, A ≠ e.thread_index → s.per_cpu[A]? = per_cpu[A]?)
      hroom (fun s h => h)
      (fun s _ _ _ _ h _ _ _ _ _ => h)
      (fun s bi0 bi1 bi4 bi5 pc h _ _ _ _ _ _ => by
        refine ⟨by simp [ratelimiter_x2, h.1], fun A hA => ?_⟩
        show (s.per_cpu.set e.thread_index _)[A]? = per_cpu[A]?
        rw [List.getElem?_set_ne (Ne.symm hA)]
        exact h.2 A hA)
      (fun s bi0 pc h _ _ => by
        refine ⟨by simp [node_x1, h.1], fun A hA => ?_⟩
        show (s.per_cpu.set e.thread_index _)[A]? = per_cpu[A]?
        rw [List.getElem?_set_ne (Ne.symm hA)]
        exact h.2 A hA)
      fuel per_cpu buffers hfuel hcpu ⟨rfl, fun _ _ => rfl⟩
  refine ⟨s, hrun, hP.1, hP.2, fun per_cpu1 hsame => ?_⟩
  obtain ⟨s1, hrun1, hag⟩ :=
    ratelimiter_node_off_cores e fuel per_cpu per_cpu1 buffers s _ hsame hrun
  have heq := agree_off_cores_eq e.thread_index s s1 hag
  refine ⟨s1, hrun1, hag.1.symm, ?_, ?_, ?_, ?_, ?_⟩ <;> rw [heq]

theorem ratelimiter_core_isolation_witness :
    (∀ k, 0 < (plain_env 1 eight_handles).room k) ∧
    (plain_env 1 eight_handles).frame.length ≤ 8 ∧
    (plain_env 1 eight_handles).thread_index < two_empty_cores.length ∧
    ∃ s, ratelimiter_node (plain_env 1 eight_handles) 8 two_empty_cores one_flow_pool
        = .ok (s, 8) ∧
      s.per_cpu.length = 2 ∧ s.per_cpu[0]? = two_empty_cores[0]? := by
  refine ⟨fun _ => (by decide : 0 < 256), by decide, by decide, ?_⟩
  obtain ⟨s, hrun, hlen, hoff, _⟩ :=
    ratelimiter_core_isolation (plain_env 1 eight_handles) 8 two_empty_cores one_flow_pool
      (fun _ => (by decide : 0 < 256)) (by decide) (by decide)
  exact ⟨s, hrun, hlen, hoff 0 (by decide)⟩

/-! ## C11: the packet goes back out of the interface it came in on -/

/-- C11.  Reflect forwarding decision.  For both node functions, every batch and every
handle `bi` in it: after the run the outbound interface of the packet is the inbound
interface the packet had on entry; the inbound interface itself is never written.  This
holds for every room the next frames offer, hence for packets of the paired loop and of the
single-packet loop alike, and for every table, hence for new and for known keys. -/
theorem reflect_forwarding (e : node_env) (fuel : Nat) (per_cpu : List fc_per_cpu_t)
    (buffers : Nat → vlib_buffer_t) (hroom : ∀ k, 0 < e.room k)
    (hfuel : e.frame.length ≤ fuel) (hcpu : e.thread_index < per_cpu.length) :
    (∃ s, flowcounter_node e fuel per_cpu buffers = .ok (s, e.frame.length) ∧
      ∀ bi ∈ e.frame, (s.buffers bi).sw_if_index_TX = (buffers bi).sw_if_index_RX ∧
        (s.buffers bi).sw_if_index_RX = (buffers bi).sw_if_index_RX) ∧
    (∃ s, ratelimiter_node e fuel per_cpu buffers = .ok (s, e.frame.length) ∧
      ∀ bi ∈ e.frame, (s.buffers bi).sw_if_index_TX = (buffers bi).sw_if_index_RX ∧
        (s.buffers bi).sw_if_index_RX = (buffers bi).sw_if_index_RX) := by
  have hx1 : ∀ (cpu : Nat) (s : node_state) (bi0 : Nat) (pc : fc_per_cpu_t),
      ((∀ bi, (s.buffers bi).sw_if_index_RX = (buffers bi).sw_if_index_RX) ∧
        ∀ bi ∈ e.frame.take s.from_,
          (s.buffers bi).sw_if_index_TX = (buffers bi).sw_if_index_RX) →
      e.frame[s.from_]? = some bi0 →
      ((∀ bi, ((node_x1 e cpu s bi0 pc).buffers bi).sw_if_index_RX
          = (buffers bi).sw_if_index_RX) ∧
        ∀ bi ∈ e.frame.take (node_x1 e cpu s bi0 pc).from_,
          ((node_x1 e cpu s bi0 pc).buffers bi).sw_if_index_TX
            = (buffers bi).sw_if_index_RX) := by
    intro cpu s bi0 pc h hbi
    have hfrom : (node_x1 e cpu s bi0 pc).from_ = s.from_ + 1 := rfl
    have htake : e.frame.take (s.from_ + 1) = e.frame.take s.from_ ++ [bi0] := by
      rw [List.take_succ, hbi]; rfl
    rw [hfrom, htake]
    have hbuf : ∀ bi, (node_x1 e cpu s bi0 pc).buffers bi =
        if bi = bi0 then
          { s.buffers bi0 with
            en := { (s.buffers bi0).en with
              dst_address := (s.buffers bi0).en.dst_address.set 0
                ((s.buffers bi0).en.dst_address.getD 1 0) }
            sw_if_index_TX := (s.buffers bi0).sw_if_index_RX }
        else s.buffers bi := fun bi => rfl
    constructor
    · intro bi
      rw [hbuf bi]
      by_cases hb : bi = bi0
      · subst hb
        rw [if_pos rfl]
        exact h.1 bi
      · rw [if_neg hb]
        exact h.1 bi
    · intro bi hmem
      rw [hbuf bi]
      by_cases hb : bi = bi0
      · subst hb
        rw [if_pos rfl]
        exact h.1 bi
      · rw [if_neg hb]
        rcases List.mem_append.mp hmem with hm | hm
        · exact h.2 bi hm
        · exact absurd (List.mem_singleton.mp hm) hb
  have hx2 : ∀ (s : node_state) (bi0 bi1 bi4 bi5 : Nat) (pc : fc_per_cpu_t),
      ((∀ bi, (s.buffers bi).sw_if_index_RX = (buffers bi).sw_if_index_RX) ∧
        ∀ bi ∈ e.frame.take s.from_,
          (s.buffers bi).sw_if_index_TX = (buffers bi).sw_if_index_RX) →
      e.frame[s.from_]? = some bi0 → e.frame[s.from_ + 1]? = some bi1 →
      ((∀ bi, ((ratelimiter_x2 e s bi0 bi1 bi4 bi5 pc).buffers bi).sw_if_index_RX
          = (buffers bi).sw_if_index_RX) ∧
        ∀ bi ∈ e.frame.take (ratelimiter_x2 e s bi0 bi1 bi4 bi5 pc).from_,
          ((ratelimiter_x2 e s bi0 bi1 bi4 bi5 pc).buffers bi).sw_if_index_TX
            = (buffers bi).sw_if_index_RX) := by
    intro s bi0 bi1 bi4 bi5 pc h h0 h1
    have hfrom : (ratelimiter_x2 e s bi0 bi1 bi4 bi5 pc).from_ = s.from_ + 2 := rfl
    rw [hfrom, take_two_more e.frame s.from_ bi0 bi1 h0 h1]
    have hbuf : ∀ bi, (ratelimiter_x2 e s bi0 bi1 bi4 bi5 pc).buffers bi =
        if bi = bi1 then
          { (if bi1 = bi0 then
                { s.buffers bi0 with
                  sw_if_index_TX := (s.buffers bi0).sw_if_index_RX }
              else s.buffers bi1) with
            sw_if_index_TX := (s.buffers bi1).sw_if_index_RX }
        else if bi = bi0 then
          { s.buffers bi0 with sw_if_index_TX := (s.buffers bi0).sw_if_index_RX }
        else s.buffers bi := fun bi => rfl
    constructor
    · intro bi
      rw [hbuf bi]
      by_cases hb1 : bi = bi1
      · subst hb1
        rw [if_pos rfl]
        by_cases hb0 : bi = bi0
        · subst hb0
          rw [if_pos rfl]
          exact h.1 bi
        · rw [if_neg hb0]
          exact h.1 bi
      · rw [if_neg hb1]
        by_cases hb0 : bi = bi0
        · subst hb0
          rw [if_pos rfl]
          exact h.1 bi
        · rw [if_neg hb0]
          exact h.1 bi
    · intro bi hmem
      rw [hbuf bi]
      by_cases hb1 : bi = bi1
      · subst hb1
        rw [if_pos rfl]
        exact h.1 bi
      · rw [if_neg hb1]
        by_cases hb0 : bi = bi0
        · subst hb0
          rw [if_pos rfl]
          exact h.1 bi
        · rw [if_neg hb0]
          rcases List.mem_append.mp hmem with hm | hm
          · exact h.2 bi hm
          · simp at hm
            rcases hm with hm | hm
            · exact absurd hm hb0
            · exact absurd hm hb1
  constructor
  · obtain ⟨s, hrun, hP, _, hfr⟩ :=
      flowcounter_node_inv e
        (fun s => (∀ bi, (s.buffers bi).sw_if_index_RX = (buffers bi).sw_if_index_RX) ∧
          ∀ bi ∈ e.frame.take s.from_,
            (s.buffers bi).sw_if_index_TX = (buffers bi).sw_if_index_RX)
        hroom (fun s h => h)
        (fun s bi0 pc h hbi _ => hx1 0 s bi0 pc h hbi)
        fuel per_cpu buffers hfuel (by omega)
        ⟨fun _ => rfl, fun bi hmem => by simp [node_entry] at hmem⟩
    refine ⟨s, hrun, fun bi hmem => ⟨?_, hP.1 bi⟩⟩
    apply hP.2 bi
    rw [hfr, List.take_length]
    exact hmem
  · obtain ⟨s, hrun, hP, _, hfr⟩ :=
      ratelimiter_node_inv e
        (fun s => (∀ bi, (s.buffers bi).sw_if_index_RX = (buffers bi).sw_if_index_RX) ∧
          ∀ bi ∈ e.frame.take s.from_,
            (s.buffers bi).sw_if_index_TX = (buffers bi).sw_if_index_RX)
        hroom (fun s h => h)
        (fun s _ _ _ _ h _ _ _ _ _ => h)
        (fun s bi0 bi1 bi4 bi5 pc h _ h0 h1 _ _ _ => hx2 s bi0 bi1 bi4 bi5 pc h h0 h1)
        (fun s bi0 pc h hbi _ => hx1 e.thread_index s bi0 pc h hbi)
        fuel per_cpu buffers hfuel hcpu
        ⟨fun _ => rfl, fun bi hmem => by simp [node_entry] at hmem⟩
    refine ⟨s, hrun, fun bi hmem => ⟨?_, hP.1 bi⟩⟩
    apply hP.2 bi
    rw [hfr, List.take_length]
    exact hmem

theorem reflect_forwarding_witness :
    (∀ k, 0 < (plain_env 1 eight_handles).room k) ∧
    (plain_env 1 eight_handles).frame.length ≤ 8 ∧
    (plain_env 1 eight_handles).thread_index < two_empty_cores.length ∧
    (one_flow_pool 10).sw_if_index_RX = 5 ∧ (one_flow_pool 10).sw_if_index_TX = 0 ∧
    (∃ s, flowcounter_node (plain_env 1 eight_handles) 8 two_empty_cores one_flow_pool
        = .ok (s, 8) ∧ (s.buffers 10).sw_if_index_TX = 5) ∧
    (∃ s, ratelimiter_node (plain_env 1 eight_handles) 8 two_empty_cores one_flow_pool
        = .ok (s, 8) ∧ (s.buffers 10).sw_if_index_TX = 5) := by
  have h := reflect_forwarding (plain_env 1 eight_handles) 8 two_empty_cores one_flow_pool
    (fun _ => (by decide : 0 < 256)) (by decide) (by decide)
  obtain ⟨⟨s, hrun, hs⟩, ⟨t, hrunt, ht⟩⟩ := h
  exact ⟨fun _ => (by decide : 0 < 256), by decide, by decide, rfl, rfl,
    ⟨s, hrun, (hs 10 (by decide)).1⟩, ⟨t, hrunt, (ht 10 (by decide)).1⟩⟩

/-! ## C15: the empty batch -/

/-- C15.  Empty batch.  For a frame of zero packets both node functions return `0` with
any fuel, having written nothing through `to_next`, with `pkts_inserted = 0` and
`pkts_swapped = 0`, and with every per-core table and every buffer as it was. -/
theorem empty_batch (e : node_env) (fuel : Nat) (per_cpu : List fc_per_cpu_t)
    (buffers : Nat → vlib_buffer_t) (hempty : e.frame = [])
    (hcpu : e.thread_index < per_cpu.length) :
    (∃ s, flowcounter_node e fuel per_cpu buffers = .ok (s, 0) ∧ s.to_next = [] ∧
      s.pkts_inserted = 0 ∧ s.pkts_swapped = 0 ∧ s.per_cpu = per_cpu ∧
      s.buffers = buffers ∧ s.add_del_rv = []) ∧
    (∃ s, ratelimiter_node e fuel per_cpu buffers = .ok (s, 0) ∧ s.to_next = [] ∧
      s.pkts_inserted = 0 ∧ s.pkts_swapped = 0 ∧ s.per_cpu = per_cpu ∧
      s.buffers = buffers ∧ s.add_del_rv = []) := by
  have hz : (node_entry e per_cpu buffers).n_left_from = 0 := by
    simp [node_entry, hempty]
  have hn : ¬ 0 < (node_entry e per_cpu buffers).n_left_from := by omega
  constructor
  · refine ⟨node_entry e per_cpu buffers, ?_, rfl, rfl, rfl, rfl, rfl, rfl⟩
    cases fuel <;> simp [flowcounter_node, node_x1_outer, hn, hempty]
  · refine ⟨node_entry e per_cpu buffers, ?_, rfl, rfl, rfl, rfl, rfl, rfl⟩
    cases fuel <;>
      simp [ratelimiter_node, ratelimiter_outer, hn, hempty, List.getElem?_eq_getElem hcpu]

theorem empty_batch_witness :
    (plain_env 1 []).frame = [] ∧
    (plain_env 1 []).thread_index < two_empty_cores.length ∧
    (∃ s, flowcounter_node (plain_env 1 []) 0 two_empty_cores one_flow_pool = .ok (s, 0) ∧
      s.to_next = [] ∧ s.pkts_inserted = 0 ∧ s.pkts_swapped = 0 ∧
      s.per_cpu = two_empty_cores ∧ s.buffers = one_flow_pool ∧ s.add_del_rv = []) ∧
    (∃ s, ratelimiter_node (plain_env 1 []) 0 two_empty_cores one_flow_pool = .ok (s, 0) ∧
      s.to_next = [] ∧ s.pkts_inserted = 0 ∧ s.pkts_swapped = 0 ∧
      s.per_cpu = two_empty_cores ∧ s.buffers = one_flow_pool ∧ s.add_del_rv = []) :=
  ⟨rfl, by decide,
    empty_batch (plain_env 1 []) 0 two_empty_cores one_flow_pool rfl (by decide)⟩

/-! ## C17: distinct flows have distinct keys -/

theorem get_hash_key_words (ip4 : ip4_header_t) (udp : udp_header_t)
    (hs : ip4.src_address < 2 ^ 32) (hd : ip4.dst_address < 2 ^ 32)
    (hsp : udp.src_port < 2 ^ 16) (hdp : udp.dst_port < 2 ^ 16) :
    (get_hash_key ip4 udp).key
      = (ip4.src_address * 2 ^ 32 + ip4.dst_address,
         udp.src_port * 2 ^ 16 + udp.dst_port) := by
  have e1 : (ip4.src_address <<< 32) % 2 ^ 64 = ip4.src_address * 2 ^ 32 := by
    rw [Nat.shiftLeft_eq]
    apply Nat.mod_eq_of_lt
    omega
  have e2 : (udp.src_port <<< 16) % 2 ^ 32 = udp.src_port * 2 ^ 16 := by
    rw [Nat.shiftLeft_eq]
    apply Nat.mod_eq_of_lt
    omega
  have o1 : ip4.src_address * 2 ^ 32 ||| ip4.dst_address
      = ip4.src_address * 2 ^ 32 + ip4.dst_address := by
    rw [Nat.mul_comm, ← Nat.mul_add_lt_is_or hd]
  have o2 : udp.src_port * 2 ^ 16 ||| udp.dst_port
      = udp.src_port * 2 ^ 16 + udp.dst_port := by
    rw [Nat.mul_comm, ← Nat.mul_add_lt_is_or hdp]
  show ((ip4.src_address <<< 32) % 2 ^ 64 ||| ip4.dst_address,
      (udp.src_port <<< 16) % 2 ^ 32 ||| udp.dst_port) = _
  rw [e1, e2, o1, o2]

/-- C17.  Key injectivity.  For IPv4/UDP headers with 32-bit addresses and 16-bit ports,
if `get_hash_key` gives two packets keys that agree on both 64-bit words, then the packets
have the same source address, destination address, source port and destination port.  So
packets of different flows have different FlowKeys. -/
theorem get_hash_key_injective (ip4 ip4' : ip4_header_t) (udp udp' : udp_header_t)
    (hs : ip4.src_address < 2 ^ 32) (hd : ip4.dst_address < 2 ^ 32)
    (hsp : udp.src_port < 2 ^ 16) (hdp : udp.dst_port < 2 ^ 16)
    (hs' : ip4'.src_address < 2 ^ 32) (hd' : ip4'.dst_address < 2 ^ 32)
    (hsp' : udp'.src_port < 2 ^ 16) (hdp' : udp'.dst_port < 2 ^ 16)
    (hkey : (get_hash_key ip4 udp).key = (get_hash_key ip4' udp').key) :
    ip4.src_address = ip4'.src_address ∧ ip4.dst_address = ip4'.dst_address ∧
    udp.src_port = udp'.src_port ∧ udp.dst_port = udp'.dst_port := by
  rw [get_hash_key_words ip4 udp hs hd hsp hdp,
    get_hash_key_words ip4' udp' hs' hd' hsp' hdp'] at hkey
  have h1 := congrArg Prod.fst hkey
  have h2 := congrArg Prod.snd hkey
  simp only at h1 h2
  refine ⟨?_, ?_, ?_, ?_⟩ <;> omega

theorem get_hash_key_injective_witness :
    (udp_packet 1 2 3 4 5).ip4.src_address < 2 ^ 32 ∧
    (udp_packet 1 2 3 4 5).ip4.dst_address < 2 ^ 32 ∧
    (udp_packet 1 2 3 4 5).udp.src_port < 2 ^ 16 ∧
    (udp_packet 1 2 3 4 5).udp.dst_port < 2 ^ 16 ∧
    (get_hash_key (udp_packet 1 2 3 4 5).ip4 (udp_packet 1 2 3 4 5).udp).key
      = (get_hash_key (udp_packet 1 2 3 4 9).ip4 (udp_packet 1 2 3 4 9).udp).key ∧
    (udp_packet 1 2 3 4 5).ip4.src_address = (udp_packet 1 2 3 4 9).ip4.src_address ∧
    (udp_packet 1 2 3 4 5).udp.dst_port = (udp_packet 1 2 3 4 9).udp.dst_port :=
  ⟨by decide, by decide, by decide, by decide, rfl,
    (get_hash_key_injective (udp_packet 1 2 3 4 5).ip4 (udp_packet 1 2 3 4 9).ip4
      (udp_packet 1 2 3 4 5).udp (udp_packet 1 2 3 4 9).udp
      (by decide) (by decide) (by decide) (by decide)
      (by decide) (by decide) (by decide) (by decide) rfl).1,
    (get_hash_key_injective (udp_packet 1 2 3 4 5).ip4 (udp_packet 1 2 3 4 9).ip4
      (udp_packet 1 2 3 4 5).udp (udp_packet 1 2 3 4 9).udp
      (by decide) (by decide) (by decide) (by decide)
      (by decide) (by decide) (by decide) (by decide) rfl).2.2.2⟩

/-! ## C13 and C14: initialisation -/

theorem vec_validate_cores (n : Nat) (h1 : 1 ≤ n) :
    vec_validate [] (n - 1) = List.replicate n fc_per_cpu_zero := by
  have h2 : n - 1 + 1 - 0 = n := by omega
  simp only [vec_validate, List.length_nil, List.nil_append, h2]

theorem init_tables_loop_spec (plugin : String) (n : Nat) :
    ∀ fuel i (p : List fc_per_cpu_t), p.length = n → n ≤ fuel + i →
      ∃ q, init_tables_loop plugin n fuel i p = .ok q ∧ q.length = n ∧
        (∀ j, j < i → q[j]? = p[j]?) ∧
        (∀ j, i ≤ j → j < n → q[j]? = some
          { hash_table := { name := plugin ++ "_" ++ toString j, nbuckets := 2097152,
                            memory_size := 2 ^ 30, memory_used := 0,
                            buckets := fun _ => [] } }) := by
  intro fuel
  induction fuel with
  | zero =>
    intro i p hp hf
    have hi : ¬ i < n := by omega
    refine ⟨p, by simp only [init_tables_loop, hi, if_false], hp, fun _ _ => rfl,
      fun j h1 h2 => by omega⟩
  | succ m ih =>
    intro i p hp hf
    by_cases hi : i < n
    · have hip : i < p.length := by omega
      obtain ⟨q, hrun, hlen, hlow, hhigh⟩ :=
        ih (i + 1)
          (p.set i
            { p[i] with hash_table :=
                (clib_bihash_init_16_8 p[i].hash_table (plugin ++ "_" ++ toString i)
                  2097152 (1 <<< 30)) })
          (by rw [List.length_set]; exact hp) (by omega)
      refine ⟨q, ?_, hlen, fun j hj => ?_, fun j h1 h2 => ?_⟩
      · simp only [init_tables_loop, hi, if_true, List.getElem?_eq_getElem hip, hrun]
      · rw [hlow j (by omega), List.getElem?_set_ne (by omega)]
      · by_cases hji : j = i
        · subst hji
          rw [hlow j (by omega), List.getElem?_set_self hip]
          rfl
        · exact hhigh j (by omega) h2
    · refine ⟨p, by simp only [init_tables_loop, hi, if_false], hp, fun _ _ => rfl,
        fun j h1 h2 => by omega⟩

/-- C13.  Initialisation of flowcounter and clb.  For every core count `n ≥ 1`, with fuel
for `n` passes of the loop, `flowcounter_init` and `clb_init` return the null error, leave
`per_cpu` with exactly `n` entries, and for every `i < n` the table of `per_cpu[i]` is an
initialised, empty table named `flowcounter_i` resp. `clb_i` with 2097152 = 2^21 buckets
and a budget of 2^30 bytes. -/
theorem init_one_table_per_core (sm : plugin_main_t)
    (vnet_main msg_id_base n fuel : Nat) (h1 : 1 ≤ n) (hfuel : n ≤ fuel) :
    (∃ m, flowcounter_init sm vnet_main msg_id_base n fuel = .ok (m, none) ∧
      m.per_cpu.length = n ∧
      ∀ i, i < n → ∃ pc : fc_per_cpu_t, m.per_cpu[i]? = some pc ∧
        pc.hash_table.name = "flowcounter_" ++ toString i ∧
        pc.hash_table.nbuckets = 2097152 ∧ pc.hash_table.nbuckets = 2 ^ 21 ∧
        pc.hash_table.memory_size = 2 ^ 30 ∧ pc.hash_table.memory_used = 0 ∧
        ∀ b, pc.hash_table.buckets b = []) ∧
    (∃ m, clb_init sm vnet_main msg_id_base n fuel = .ok (m, none) ∧
      m.per_cpu.length = n ∧
      ∀ i, i < n → ∃ pc : fc_per_cpu_t, m.per_cpu[i]? = some pc ∧
        pc.hash_table.name = "clb_" ++ toString i ∧
        pc.hash_table.nbuckets = 2097152 ∧ pc.hash_table.nbuckets = 2 ^ 21 ∧
        pc.hash_table.memory_size = 2 ^ 30 ∧ pc.hash_table.memory_used = 0 ∧
        ∀ b, pc.hash_table.buckets b = []) := by
  have hn1 : ¬ n < 1 := by omega
  constructor
  · obtain ⟨q, hrun, hlen, _, hhigh⟩ :=
      init_tables_loop_spec "flowcounter" n fuel 0 (List.replicate n fc_per_cpu_zero)
        (by simp) (by omega)
    refine ⟨{ sm with vnet_main := vnet_main, msg_id_base := msg_id_base, per_cpu := q },
      ?_, hlen, fun i hi => ?_⟩
    · simp only [flowcounter_init, hn1, if_false, vec_validate_cores n h1, hrun]
    · exact ⟨_, hhigh i (by omega) hi, rfl, rfl, rfl, rfl, rfl, fun _ => rfl⟩
  · obtain ⟨q, hrun, hlen, _, hhigh⟩ :=
      init_tables_loop_spec "clb" n fuel 0 (List.replicate n fc_per_cpu_zero)
        (by simp) (by omega)
    refine ⟨{ sm with vnet_main := vnet_main, msg_id_base := msg_id_base, per_cpu := q },
      ?_, hlen, fun i hi => ?_⟩
    · simp only [clb_init, hn1, if_false, vec_validate_cores n h1, hrun]
    · exact ⟨_, hhigh i (by omega) hi, rfl, rfl, rfl, rfl, rfl, fun _ => rfl⟩

theorem init_one_table_per_core_witness :
    1 ≤ 2 ∧ 2 ≤ 2 ∧
    (∃ m, flowcounter_init plugin_main_zero 7 9 2 2 = .ok (m, none) ∧
      m.per_cpu.length = 2 ∧
      ∃ pc : fc_per_cpu_t, m.per_cpu[1]? = some pc ∧
        pc.hash_table.name = "flowcounter_1" ∧ pc.hash_table.nbuckets = 2097152 ∧
        pc.hash_table.memory_size = 1073741824) ∧
    (∃ m, clb_init plugin_main_zero 7 9 2 2 = .ok (m, none) ∧
      m.per_cpu.length = 2 ∧
      ∃ pc : fc_per_cpu_t, m.per_cpu[1]? = some pc ∧
        pc.hash_table.name = "clb_1" ∧ pc.hash_table.nbuckets = 2097152 ∧
        pc.hash_table.memory_size = 1073741824) := by
  obtain ⟨⟨m, hm, hlen, hall⟩, ⟨c, hc, hclen, hcall⟩⟩ :=
    init_one_table_per_core plugin_main_zero 7 9 2 2 (by decide) (by decide)
  obtain ⟨pc, hpc, hname, hnb, _, hmem, _⟩ := hall 1 (by decide)
  obtain ⟨pd, hpd, hdname, hdnb, _, hdmem, _⟩ := hcall 1 (by decide)
  exact ⟨by decide, by decide,
    ⟨m, hm, hlen, pc, hpc, hname.trans (by decide), hnb, hmem.trans (by decide)⟩,
    ⟨c, hc, hclen, pd, hpd, hdname.trans (by decide), hdnb, hdmem.trans (by decide)⟩⟩

/-- C14.  `cpolicer_init` run for two cores returns the null error with `per_cpu` sized
for both cores, and initialises the table of `per_cpu[0]` (`cpolicer_0`, 4194304 buckets,
2^30 bytes) and no other: the table of `per_cpu[1]` has neither the 4194304 buckets nor
the 2^30-byte budget of an initialised table, where the claim has one initialised table
for every core.  `flowcounter_init`, run for the same two cores, initialises the table of
`per_cpu[1]` as well. -/
theorem cpolicer_init_core_one_unset :
    ∃ m, ∃ pc0 pc1 : fc_per_cpu_t, ∃ f, ∃ fc1 : fc_per_cpu_t,
      cpolicer_init plugin_main_zero 7 9 2 = .ok (m, none) ∧
      m.per_cpu.length = 2 ∧
      m.per_cpu[0]? = some pc0 ∧ pc0.hash_table.name = "cpolicer_0" ∧
      pc0.hash_table.nbuckets = 4194304 ∧ pc0.hash_table.memory_size = 2 ^ 30 ∧
      m.per_cpu[1]? = some pc1 ∧
      pc1.hash_table.nbuckets ≠ 4194304 ∧ pc1.hash_table.memory_size ≠ 2 ^ 30 ∧
      flowcounter_init plugin_main_zero 7 9 2 2 = .ok (f, none) ∧
      f.per_cpu[1]? = some fc1 ∧ fc1.hash_table.name = "flowcounter_1" ∧
      fc1.hash_table.nbuckets = 2097152 ∧ fc1.hash_table.memory_size = 2 ^ 30 :=
  ⟨_, _, _, _, _, rfl, rfl, rfl, by decide, rfl, rfl, rfl, by decide, by decide,
    rfl, rfl, by decide, rfl, rfl⟩

/-! ## C18: no read outside the frame -/

theorem in_bounds_bind (e : node_env) (cpu : Nat)
    (f : node_state → Except node_fault node_state) (r : Except node_fault node_state) :
    in_bounds_result e cpu r →
    (∀ s, s.from_ + s.n_left_from = e.frame.length → cpu < s.per_cpu.length →
      in_bounds_result e cpu (f s)) →
    in_bounds_result e cpu
      (match r with
        | .ok s => f s
        | .error a => .error a) := by
  intro hr hf
  cases r with
  | error a => exact hr
  | ok s => exact hf s hr.1 hr.2

theorem node_x1_loop_in_bounds (e : node_env) (cpu : Nat) :
    ∀ fuel s, s.from_ + s.n_left_from = e.frame.length → cpu < s.per_cpu.length →
      in_bounds_result e cpu (node_x1_loop e cpu fuel s) := by
  intro fuel
  induction fuel with
  | zero =>
    intro s hb hc
    by_cases hg : 0 < s.n_left_from ∧ 0 < s.n_left_to_next
    · simp only [node_x1_loop, hg, and_self, if_true, in_bounds_result]
    · simp only [node_x1_loop, hg, if_false, in_bounds_result]
      exact ⟨hb, hc⟩
  | succ n ih =>
    intro s hb hc
    by_cases hg : 0 < s.n_left_from ∧ 0 < s.n_left_to_next
    · obtain ⟨bi0, pc, _, _, hbody⟩ := node_x1_body_ok e cpu s hg.1 hg.2 (by omega) hc
      have hfrom1 : (node_x1 e cpu s bi0 pc).from_ = s.from_ + 1 := rfl
      have hleft1 : (node_x1 e cpu s bi0 pc).n_left_from = s.n_left_from - 1 := rfl
      have hlen1 : (node_x1 e cpu s bi0 pc).per_cpu.length = s.per_cpu.length := by
        simp [node_x1]
      simp only [node_x1_loop, hg, and_self, if_true, hbody]
      exact ih _ (by rw [hfrom1, hleft1]; omega) (by rw [hlen1]; exact hc)
    · simp only [node_x1_loop, hg, if_false, in_bounds_result]
      exact ⟨hb, hc⟩

theorem ratelimiter_x2_loop_in_bounds (e : node_env) :
    ∀ fuel s, s.from_ + s.n_left_from = e.frame.length →
      e.thread_index < s.per_cpu.length →
      in_bounds_result e e.thread_index (ratelimiter_x2_loop e fuel s) := by
  intro fuel
  induction fuel with
  | zero =>
    intro s hb hc
    by_cases hg : 8 ≤ s.n_left_from ∧ 2 ≤ s.n_left_to_next
    · simp only [ratelimiter_x2_loop, hg, and_self, if_true, in_bounds_result]
    · simp only [ratelimiter_x2_loop, hg, if_false, in_bounds_result]
      exact ⟨hb, hc⟩
  | succ n ih =>
    intro s hb hc
    by_cases hg : 8 ≤ s.n_left_from ∧ 2 ≤ s.n_left_to_next
    · obtain ⟨bi0, bi1, bi4, bi5, pc, _, _, _, _, _, hbody⟩ :=
        ratelimiter_x2_body_ok e s hg.1 hg.2 hb hc
      have hfrom1 : (ratelimiter_x2 e s bi0 bi1 bi4 bi5 pc).from_ = s.from_ + 2 := rfl
      have hleft1 : (ratelimiter_x2 e s bi0 bi1 bi4 bi5 pc).n_left_from = s.n_left_from - 2 :=
        rfl
      have hlen1 : (ratelimiter_x2 e s bi0 bi1 bi4 bi5 pc).per_cpu.length
          = s.per_cpu.length := by
        simp [ratelimiter_x2]
      simp only [ratelimiter_x2_loop, hg, and_self, if_true, hbody]
      exact ih _ (by rw [hfrom1, hleft1]; omega) (by rw [hlen1]; exact hc)
    · simp only [ratelimiter_x2_loop, hg, if_false, in_bounds_result]
      exact ⟨hb, hc⟩

theorem ratelimiter_primed_in_bounds (e : node_env) (s : node_state)
    (hb : s.from_ + s.n_left_from = e.frame.length)
    (hc : e.thread_index < s.per_cpu.length) :
    in_bounds_result e e.thread_index
      (if 8 ≤ (vlib_get_next_frame e s).n_left_from ∧
          2 ≤ (vlib_get_next_frame e s).n_left_to_next
        then ratelimiter_prime_body e (vlib_get_next_frame e s)
        else .ok (vlib_get_next_frame e s)) := by
  by_cases hp : 8 ≤ (vlib_get_next_frame e s).n_left_from ∧
      2 ≤ (vlib_get_next_frame e s).n_left_to_next
  · obtain ⟨bi0, bi1, bi2, bi3, _, _, _, _, hbody⟩ :=
      ratelimiter_prime_body_ok e (vlib_get_next_frame e s) hp.1 hb
    simp only [hp, and_self, if_true, hbody, in_bounds_result]
    exact ⟨hb, hc⟩
  · simp only [hp, if_false, in_bounds_result]
    exact ⟨hb, hc⟩

theorem ratelimiter_outer_body_in_bounds (e : node_env) (fuel0 : Nat) (s : node_state)
    (hb : s.from_ + s.n_left_from = e.frame.length)
    (hc : e.thread_index < s.per_cpu.length) :
    in_bounds_result e e.thread_index (ratelimiter_outer_body e fuel0 s) := by
  unfold ratelimiter_outer_body
  simp only []
  apply in_bounds_bind
  · exact ratelimiter_primed_in_bounds e s hb hc
  · intro s2 hb2 hc2
    apply in_bounds_bind
    · exact ratelimiter_x2_loop_in_bounds e fuel0 s2 hb2 hc2
    · intro s3 hb3 hc3
      exact node_x1_loop_in_bounds e e.thread_index fuel0 s3 hb3 hc3

theorem ratelimiter_outer_in_bounds (e : node_env) (fuel0 : Nat) :
    ∀ fuel s, s.from_ + s.n_left_from = e.frame.length →
      e.thread_index < s.per_cpu.length →
      in_bounds_result e e.thread_index (ratelimiter_outer e fuel0 fuel s) := by
  intro fuel
  induction fuel with
  | zero =>
    intro s hb hc
    by_cases hg : 0 < s.n_left_from
    · simp only [ratelimiter_outer, hg, if_true, in_bounds_result]
    · simp only [ratelimiter_outer, hg, if_false, in_bounds_result]
      exact ⟨hb, hc⟩
  | succ n ih =>
    intro s hb hc
    by_cases hg : 0 < s.n_left_from
    · simp only [ratelimiter_outer, hg, if_true]
      exact in_bounds_bind e e.thread_index _ _
        (ratelimiter_outer_body_in_bounds e fuel0 s hb hc) ih
    · simp only [ratelimiter_outer, hg, if_false, in_bounds_result]
      exact ⟨hb, hc⟩

/-- C18.  Batch index safety of `ratelimiter_node`.  For every frame, every room the next
frames offer (zero included) and every amount of fuel, the run makes no read outside the
frame and takes no counter below zero: its outcome is neither `out_of_bounds` nor
`underflow`.  When every next frame offers room and the fuel covers the frame, the run
returns with `n_left_from = 0` and `from` at the end of the frame.  And in any state in
which `from` and `n_left_from` add up to the frame, the priming block and the body of the
paired loop, which read up to `from[7]`, succeed once 8 packets remain, and the body of
the single-packet loop, which reads `from[0]`, succeeds once 1 packet remains. -/
theorem batch_index_safety (e : node_env) (fuel : Nat) (per_cpu : List fc_per_cpu_t)
    (buffers : Nat → vlib_buffer_t) (hcpu : e.thread_index < per_cpu.length) :
    ratelimiter_node e fuel per_cpu buffers ≠ .error .out_of_bounds ∧
    ratelimiter_node e fuel per_cpu buffers ≠ .error .underflow ∧
    ((∀ k, 0 < e.room k) → e.frame.length ≤ fuel →
      ∃ s, ratelimiter_node e fuel per_cpu buffers = .ok (s, e.frame.length) ∧
        s.n_left_from = 0 ∧ s.from_ = e.frame.length) ∧
    (∀ s : node_state, s.from_ + s.n_left_from = e.frame.length →
      e.thread_index < s.per_cpu.length →
      (8 ≤ s.n_left_from → ∃ s1, ratelimiter_prime_body e s = .ok s1) ∧
      (8 ≤ s.n_left_from → 2 ≤ s.n_left_to_next →
        ∃ s1, ratelimiter_x2_body e s = .ok s1 ∧ s1.n_left_from + 2 = s.n_left_from) ∧
      (1 ≤ s.n_left_from → 1 ≤ s.n_left_to_next →
        ∃ s1, node_x1_body e e.thread_index s = .ok s1 ∧
          s1.n_left_from + 1 = s.n_left_from)) := by
  have hsafe := ratelimiter_outer_in_bounds e fuel fuel (node_entry e per_cpu buffers)
    (by simp [node_entry]) hcpu
  have hnode : ∀ f, ratelimiter_node e fuel per_cpu buffers = .error f → f = .out_of_fuel := by
    intro f hf
    unfold ratelimiter_node at hf
    rw [List.getElem?_eq_getElem hcpu] at hf
    simp only [] at hf
    cases hr : ratelimiter_outer e fuel fuel (node_entry e per_cpu buffers) with
    | ok s => rw [hr] at hf; simp at hf
    | error a =>
      rw [hr] at hf hsafe
      simp only [Except.error.injEq] at hf
      rw [← hf]
      exact hsafe
  refine ⟨fun h => ?_, fun h => ?_, fun hroom hfuel => ?_, fun s hb hc => ⟨?_, ?_, ?_⟩⟩
  · exact absurd (hnode _ h) (by decide)
  · exact absurd (hnode _ h) (by decide)
  · obtain ⟨s, hrun, _, hz, hfr⟩ :=
      ratelimiter_node_inv e (fun _ => True) hroom (fun _ _ => trivial)
        (fun _ _ _ _ _ _ _ _ _ _ _ => trivial) (fun _ _ _ _ _ _ _ _ _ _ _ _ _ => trivial)
        (fun _ _ _ _ _ _ => trivial) fuel per_cpu buffers hfuel hcpu trivial
    exact ⟨s, hrun, hz, hfr⟩
  · intro h8
    obtain ⟨bi0, bi1, bi2, bi3, _, _, _, _, hbody⟩ := ratelimiter_prime_body_ok e s h8 hb
    exact ⟨_, hbody⟩
  · intro h8 h2
    obtain ⟨bi0, bi1, bi4, bi5, pc, _, _, _, _, _, hbody⟩ :=
      ratelimiter_x2_body_ok e s h8 h2 hb hc
    refine ⟨_, hbody, ?_⟩
    show s.n_left_from - 2 + 2 = s.n_left_from
    omega
  · intro h1 h2
    obtain ⟨bi0, pc, _, _, hbody⟩ := node_x1_body_ok e e.thread_index s h1 h2 (by omega) hc
    refine ⟨_, hbody, ?_⟩
    show s.n_left_from - 1 + 1 = s.n_left_from
    omega

theorem batch_index_safety_witness :
    (plain_env 0 twelve_handles).thread_index < two_empty_cores.length ∧
    (∀ k, 0 < (plain_env 0 twelve_handles).room k) ∧
    (plain_env 0 twelve_handles).frame.length ≤ 12 ∧
    ∃ s, ratelimiter_node (plain_env 0 twelve_handles) 12 two_empty_cores one_flow_pool
        = .ok (s, 12) ∧
      s.n_left_from = 0 ∧ s.from_ = 12 := by
  have h := (batch_index_safety (plain_env 0 twelve_handles) 12 two_empty_cores
    one_flow_pool (by decide)).2.2.1 (fun _ => (by decide : 0 < 256)) (by decide)
  exact ⟨by decide, fun _ => (by decide : 0 < 256), by decide, h⟩

/-! ## C16: the pipeline window -/

theorem ratelimiter_x2_headers (e : node_env) (s : node_state) (bi0 bi1 bi4 bi5 : Nat)
    (pc : fc_per_cpu_t) (bi : Nat) :
    ((ratelimiter_x2 e s bi0 bi1 bi4 bi5 pc).buffers bi).ip4 = (s.buffers bi).ip4 ∧
    ((ratelimiter_x2 e s bi0 bi1 bi4 bi5 pc).buffers bi).udp = (s.buffers bi).udp := by
  have hbuf : (ratelimiter_x2 e s bi0 bi1 bi4 bi5 pc).buffers bi =
      if bi = bi1 then
        { (if bi1 = bi0 then
              { s.buffers bi0 with sw_if_index_TX := (s.buffers bi0).sw_if_index_RX }
            else s.buffers bi1) with sw_if_index_TX := (s.buffers bi1).sw_if_index_RX }
      else if bi = bi0 then
        { s.buffers bi0 with sw_if_index_TX := (s.buffers bi0).sw_if_index_RX }
      else s.buffers bi := rfl
  rw [hbuf]
  by_cases hb1 : bi = bi1
  · subst hb1
    rw [if_pos rfl]
    by_cases hb0 : bi = bi0
    · subst hb0
      rw [if_pos rfl]
      exact ⟨rfl, rfl⟩
    · rw [if_neg hb0]
      exact ⟨rfl, rfl⟩
  · rw [if_neg hb1]
    by_cases hb0 : bi = bi0
    · subst hb0
      rw [if_pos rfl]
      exact ⟨rfl, rfl⟩
    · rw [if_neg hb0]
      exact ⟨rfl, rfl⟩

theorem window_ok_prime (e : node_env) (s : node_state) (bi0 bi1 bi2 bi3 : Nat)
    (h0 : e.frame[s.from_]? = some bi0) (h1 : e.frame[s.from_ + 1]? = some bi1)
    (h2 : e.frame[s.from_ + 2]? = some bi2) (h3 : e.frame[s.from_ + 3]? = some bi3) :
    window_ok e (ratelimiter_prime e s bi0 bi1 bi2 bi3) :=
  ⟨bi0, bi1, bi2, bi3, h0, h1, h2, h3, rfl, rfl, rfl, rfl, rfl, rfl, rfl, rfl⟩

theorem window_ok_x2 (e : node_env) (s : node_state) (bi0 bi1 bi4 bi5 : Nat)
    (pc : fc_per_cpu_t) (hw : window_ok e s)
    (h4 : e.frame[s.from_ + 4]? = some bi4) (h5 : e.frame[s.from_ + 5]? = some bi5) :
    window_ok e (ratelimiter_x2 e s bi0 bi1 bi4 bi5 pc) := by
  obtain ⟨c0, c1, c2, c3, _, _, r2, r3, _, _, k2, k3, _, _, g2, g3⟩ := hw
  have hd := ratelimiter_x2_headers e s bi0 bi1 bi4 bi5 pc
  have hfrom : (ratelimiter_x2 e s bi0 bi1 bi4 bi5 pc).from_ = s.from_ + 2 := rfl
  refine ⟨c2, c3, bi4, bi5, ?_, ?_, ?_, ?_, ?_, ?_, ?_, ?_, ?_, ?_, rfl, rfl⟩
  · rw [hfrom]; exact r2
  · rw [hfrom]; exact r3
  · rw [hfrom]; exact h4
  · rw [hfrom]; exact h5
  · rw [(hd c2).1, (hd c2).2]; exact k2
  · rw [(hd c3).1, (hd c3).2]; exact k3
  · rw [(hd bi4).1, (hd bi4).2]; rfl
  · rw [(hd bi5).1, (hd bi5).2]; rfl
  · exact g2
  · exact g3

theorem ratelimiter_x2_update (e : node_env) (s : node_state) (bi0 bi1 bi4 bi5 : Nat)
    (pc : fc_per_cpu_t) (hh0 : s.hash0 = e.hash s.key0.key)
    (hh1 : s.hash1 = e.hash s.key1.key) :
    ∃ v0 v1, (ratelimiter_x2 e s bi0 bi1 bi4 bi5 pc).per_cpu
      = s.per_cpu.set e.thread_index
          ⟨(clib_bihash_add_del_16_8 e.hash
              (clib_bihash_add_del_16_8 e.hash pc.hash_table ⟨s.key0.key, v0⟩).1
              ⟨s.key1.key, v1⟩).1⟩ := by
  unfold clib_bihash_add_del_16_8
  simp only [← hh0, ← hh1]
  by_cases c0 : (clib_bihash_search_inline_with_hash_16_8 pc.hash_table s.hash0
      (e.uninit s.from_)).1 < 0
  · by_cases c1 : (clib_bihash_search_inline_with_hash_16_8
        (clib_bihash_add_del_with_hash_16_8 pc.hash_table { s.key0 with value := 1 }
          s.hash0).1 s.hash1 (e.uninit (s.from_ + 1))).1 < 0
    · exact ⟨1, 1, by simp only [ratelimiter_x2, c0, c1, if_true]⟩
    · exact ⟨1, _, by simp only [ratelimiter_x2, c0, c1, if_true, if_false]; rfl⟩
  · by_cases c1 : (clib_bihash_search_inline_with_hash_16_8
        (clib_bihash_add_del_with_hash_16_8 pc.hash_table
          { s.key0 with value := ((clib_bihash_search_inline_with_hash_16_8 pc.hash_table
              s.hash0 (e.uninit s.from_)).2.value + 1) % 2 ^ 64 }
          s.hash0).1 s.hash1 (e.uninit (s.from_ + 1))).1 < 0
    · exact ⟨_, 1, by simp only [ratelimiter_x2, c0, c1, if_true, if_false]; rfl⟩
    · exact ⟨_, _, by simp only [ratelimiter_x2, c0, c1, if_false]; rfl⟩

/-- C16.  Eight packets of the flow `(1, 2, 3, 4)` on a core whose table holds one record,
that of the flow `(1, 2, 3, 8)` with count `5`, in the bucket of the packets' flow, while
`value0` and `value1` hold a record with the key of that other flow when they are declared.
The first pass of the paired loop begins in the state `h` that the priming block leaves,
and the window is as the claim has it: `key0`, `key1` are the keys of the packets at
`from[0]`, `from[1]` and `hash0`, `hash1` their hashes.  The flow of the packets is absent
from the table, yet the pass does not take it for new and stores it with count `6`: the
searches are handed `value0` and `value1`, not `key0` and `key1`, and find the record of
the other flow.  The run ends with count `12` and `pkts_inserted = 0`, where the update of
every packet by its own key (pipeline depth 1) ends with `8` and `1`. -/
theorem ratelimiter_update_lookup_key :
    ∃ h h1 s s1, ∃ pc1 pc pcd : fc_per_cpu_t,
      ratelimiter_prime_body stale_value_env
        (vlib_get_next_frame stale_value_env
          (node_entry stale_value_env other_flow_core one_flow_pool)) = .ok h ∧
      h.from_ = 0 ∧ 8 ≤ h.n_left_from ∧ 2 ≤ h.n_left_to_next ∧
      window_ok stale_value_env h ∧
      h.key0.key = flow_key (one_flow_pool 10) ∧
      h.hash0 = sum_hash (flow_key (one_flow_pool 10)) ∧
      h.key1.key = flow_key (one_flow_pool 11) ∧
      h.hash1 = sum_hash (flow_key (one_flow_pool 11)) ∧
      (∀ bi ∈ eight_handles, flow_key (one_flow_pool bi) = (4294967298, 196612)) ∧
      (∀ i, (stale_value_env.uninit i).key = (4294967298, 196616)) ∧
      lookup sum_hash other_flow_table (4294967298, 196612) = none ∧
      lookup sum_hash other_flow_table (4294967298, 196616) = some 5 ∧
      ratelimiter_x2_body stale_value_env h = .ok h1 ∧
      h1.per_cpu[0]? = some pc1 ∧ h1.add_del_rv = [0, 0] ∧ h1.pkts_inserted = 0 ∧
      lookup sum_hash pc1.hash_table (4294967298, 196612) = some 6 ∧
      ratelimiter_node stale_value_env 8 other_flow_core one_flow_pool = .ok (s, 8) ∧
      s.per_cpu[0]? = some pc ∧ s.add_del_rv = [0, 0, 0, 0, 0, 0, 0, 0] ∧
      s.pkts_inserted = 0 ∧
      lookup sum_hash pc.hash_table (4294967298, 196612) = some 12 ∧
      ratelimiter_node_depth1 stale_value_env 8 other_flow_core one_flow_pool
        = .ok (s1, 8) ∧
      s1.per_cpu[0]? = some pcd ∧ s1.pkts_inserted = 1 ∧
      lookup sum_hash pcd.hash_table (4294967298, 196612) = some 8 :=
  ⟨_, _, _, _, _, _, _, rfl, rfl, by decide, by decide,
    ⟨10, 11, 12, 13, rfl, rfl, rfl, rfl, rfl, rfl, rfl, rfl, rfl, rfl, rfl, rfl⟩,
    rfl, rfl, rfl, rfl, by decide,
    fun _ => (by decide : flow_key (udp_packet 1 2 3 8 5) = (4294967298, 196616)),
    by decide, by decide,
    rfl, rfl, by decide, by decide, by decide,
    rfl, rfl, by decide, by decide, by decide,
    rfl, rfl, by decide, by decide⟩

/-! ## C12: a batch on a table that runs out of budget -/

theorem node_x1_exact (e : node_env) (cpu : Nat) (s : node_state) (bi0 : Nat)
    (pc : fc_per_cpu_t) :
    (node_x1 e cpu s bi0 pc).per_cpu
      = s.per_cpu.set cpu
          ⟨(flow_update e.hash pc.hash_table (flow_key (s.buffers bi0))).1⟩ ∧
    (node_x1 e cpu s bi0 pc).add_del_rv
      = s.add_del_rv ++ [(flow_update e.hash pc.hash_table (flow_key (s.buffers bi0))).2] ∧
    (node_x1 e cpu s bi0 pc).pkts_inserted
      = (if lookup e.hash pc.hash_table (flow_key (s.buffers bi0)) = none
          then (s.pkts_inserted + 1) % 2 ^ 32 else s.pkts_inserted) := by
  have hs := search_16_8_lookup e.hash pc.hash_table
    (get_hash_key (s.buffers bi0).ip4 (s.buffers bi0).udp) (e.uninit s.from_)
  have hkey : (get_hash_key (s.buffers bi0).ip4 (s.buffers bi0).udp).key
      = flow_key (s.buffers bi0) := rfl
  rw [hkey] at hs
  by_cases hf : (clib_bihash_search_16_8 e.hash pc.hash_table
      (get_hash_key (s.buffers bi0).ip4 (s.buffers bi0).udp) (e.uninit s.from_)).1 < 0
  · have hnone := hs.1.mp hf
    refine ⟨?_, ?_, ?_⟩
    · simp only [node_x1, hf, if_true, flow_update, hnone, next_count]
      rfl
    · simp only [node_x1, hf, if_true, flow_update, hnone, next_count]
      rfl
    · simp only [node_x1, hf, if_true, hnone]
  · have hsome := hs.2 hf
    refine ⟨?_, ?_, ?_⟩
    · simp only [node_x1, hf, if_false, flow_update, hsome, next_count]
      rfl
    · simp only [node_x1, hf, if_false, flow_update, hsome, next_count]
      rfl
    · simp only [node_x1, hf, if_false, hsome]
      simp

theorem flow_run_x1 (e : node_env) (cpu : Nat) (buffers : Nat → vlib_buffer_t)
    (T0 : clib_bihash_16_8_t) (s : node_state) (bi0 : Nat) (pc : fc_per_cpu_t)
    (hbi : e.frame[s.from_]? = some bi0) (hpc : s.per_cpu[cpu]? = some pc)
    (h : s.n_left_from ≤ e.frame.length ∧ s.to_next = e.frame.take s.from_ ∧
      (∀ bi, flow_key (s.buffers bi) = flow_key (buffers bi)) ∧
      ∃ pc1 : fc_per_cpu_t, s.per_cpu[cpu]? = some pc1 ∧
        (pc1.hash_table, s.pkts_inserted, s.add_del_rv)
          = (batch_keys buffers (e.frame.take s.from_)).foldl (flow_step e.hash)
              (T0, 0, [])) :
    (node_x1 e cpu s bi0 pc).n_left_from ≤ e.frame.length ∧
    (node_x1 e cpu s bi0 pc).to_next = e.frame.take (node_x1 e cpu s bi0 pc).from_ ∧
    (∀ bi, flow_key ((node_x1 e cpu s bi0 pc).buffers bi) = flow_key (buffers bi)) ∧
    ∃ pc1 : fc_per_cpu_t, (node_x1 e cpu s bi0 pc).per_cpu[cpu]? = some pc1 ∧
      (pc1.hash_table, (node_x1 e cpu s bi0 pc).pkts_inserted,
          (node_x1 e cpu s bi0 pc).add_del_rv)
        = (batch_keys buffers (e.frame.take (node_x1 e cpu s bi0 pc).from_)).foldl
            (flow_step e.hash) (T0, 0, []) := by
  obtain ⟨hn, hto, hk, pc1, hpc1, hfold⟩ := h
  have hpceq : pc1 = pc := by
    rw [hpc] at hpc1
    exact (Option.some.inj hpc1).symm
  subst hpceq
  obtain ⟨e1, e2, e3⟩ := node_x1_exact e cpu s bi0 pc1
  have hfrom : (node_x1 e cpu s bi0 pc1).from_ = s.from_ + 1 := rfl
  have hleft : (node_x1 e cpu s bi0 pc1).n_left_from = s.n_left_from - 1 := rfl
  have hlt : cpu < s.per_cpu.length := by
    rcases Nat.lt_or_ge cpu s.per_cpu.length with h | h
    · exact h
    · rw [List.getElem?_eq_none h] at hpc
      exact absurd hpc (by simp)
  have htake : e.frame.take (s.from_ + 1) = e.frame.take s.from_ ++ [bi0] := by
    rw [List.take_succ, hbi]; rfl
  refine ⟨by rw [hleft]; omega, ?_, ?_, ⟨_, by rw [e1]; exact List.getElem?_set_self hlt, ?_⟩⟩
  · show s.to_next ++ [bi0] = e.frame.take (s.from_ + 1)
    rw [htake, hto]
  · intro bi
    rw [← hk bi]
    by_cases hb : bi = bi0
    · subst hb
      simp [node_x1, buffer_write, flow_key]
    · simp [node_x1, buffer_write, hb]
  · rw [hfrom, batch_keys_take_succ buffers e.frame s.from_ bi0 hbi, List.foldl_append,
      ← hfold, e2, e3, hk bi0]
    rfl

/-- The table, the new-flow counter, the insertion results and the output of a run of
`flowcounter_node`, and of a run of `ratelimiter_node` on fewer than 8 packets, as the
per-packet update folded over the FlowKeys of the batch. -/
theorem single_loop_run (e : node_env) (fuel : Nat) (per_cpu : List fc_per_cpu_t)
    (buffers : Nat → vlib_buffer_t) (pc0 pcT : fc_per_cpu_t) (hroom : ∀ k, 0 < e.room k)
    (hfuel : e.frame.length ≤ fuel) (h0 : per_cpu[0]? = some pc0)
    (hT : per_cpu[e.thread_index]? = some pcT) :
    (∃ s, ∃ pc : fc_per_cpu_t,
      flowcounter_node e fuel per_cpu buffers = .ok (s, e.frame.length) ∧
      s.to_next = e.frame ∧ s.per_cpu[0]? = some pc ∧
      (pc.hash_table, s.pkts_inserted, s.add_del_rv)
        = (batch_keys buffers e.frame).foldl (flow_step e.hash) (pc0.hash_table, 0, [])) ∧
    (e.frame.length < 8 → ∃ s, ∃ pc : fc_per_cpu_t,
      ratelimiter_node e fuel per_cpu buffers = .ok (s, e.frame.length) ∧
      s.to_next = e.frame ∧ s.per_cpu[e.thread_index]? = some pc ∧
      (pc.hash_table, s.pkts_inserted, s.add_del_rv)
        = (batch_keys buffers e.frame).foldl (flow_step e.hash) (pcT.hash_table, 0, [])) := by
  have hlen : ∀ (i : Nat) (x : fc_per_cpu_t), per_cpu[i]? = some x → i < per_cpu.length := by
    intro i x hx
    rcases Nat.lt_or_ge i per_cpu.length with h | h
    · exact h
    · rw [List.getElem?_eq_none h] at hx
      exact absurd hx (by simp)
  constructor
  · obtain ⟨s, hrun, hP, _, hfr⟩ :=
      flowcounter_node_inv e
        (fun s => s.n_left_from ≤ e.frame.length ∧ s.to_next = e.frame.take s.from_ ∧
          (∀ bi, flow_key (s.buffers bi) = flow_key (buffers bi)) ∧
          ∃ pc1 : fc_per_cpu_t, s.per_cpu[0]? = some pc1 ∧
            (pc1.hash_table, s.pkts_inserted, s.add_del_rv)
              = (batch_keys buffers (e.frame.take s.from_)).foldl (flow_step e.hash)
                  (pc0.hash_table, 0, []))
        hroom (fun s h => h)
        (fun s bi0 pc h hbi hpc => flow_run_x1 e 0 buffers pc0.hash_table s bi0 pc hbi hpc h)
        fuel per_cpu buffers hfuel (hlen 0 pc0 h0)
        ⟨le_refl _, by simp [node_entry], fun _ => rfl, pc0, h0,
          by simp [node_entry, batch_keys]⟩
    obtain ⟨_, hto, _, pc, hpc, hfold⟩ := hP
    rw [hfr, List.take_length] at hto hfold
    exact ⟨s, pc, hrun, hto, hpc, hfold⟩
  · intro hshort
    obtain ⟨s, hrun, hP, _, hfr⟩ :=
      ratelimiter_node_inv e
        (fun s => s.n_left_from ≤ e.frame.length ∧ s.to_next = e.frame.take s.from_ ∧
          (∀ bi, flow_key (s.buffers bi) = flow_key (buffers bi)) ∧
          ∃ pc1 : fc_per_cpu_t, s.per_cpu[e.thread_index]? = some pc1 ∧
            (pc1.hash_table, s.pkts_inserted, s.add_del_rv)
              = (batch_keys buffers (e.frame.take s.from_)).foldl (flow_step e.hash)
                  (pcT.hash_table, 0, []))
        hroom (fun s h => h)
        (fun s _ _ _ _ h _ _ _ _ _ => h)
        (fun s _ _ _ _ _ h h8 _ _ _ _ _ => by
          have := h.1
          omega)
        (fun s bi0 pc h hbi hpc =>
          flow_run_x1 e e.thread_index buffers pcT.hash_table s bi0 pc hbi hpc h)
        fuel per_cpu buffers hfuel (hlen _ pcT hT)
        ⟨le_refl _, by simp [node_entry], fun _ => rfl, pcT, hT,
          by simp [node_entry, batch_keys]⟩
    obtain ⟨_, hto, _, pc, hpc, hfold⟩ := hP
    rw [hfr, List.take_length] at hto hfold
    exact ⟨s, pc, hrun, hto, hpc, hfold⟩

theorem flow_update_lookup (hash : Nat × Nat → Nat) (T : clib_bihash_16_8_t)
    (k : Nat × Nat) (hrv : (flow_update hash T k).2 = 0) (k1 : Nat × Nat) :
    lookup hash (flow_update hash T k).1 k1
      = if k = k1 then some (next_count (lookup hash T k)) else lookup hash T k1 :=
  lookup_add_del hash T _ hrv k1

theorem flow_update_failed (hash : Nat × Nat → Nat) (T : clib_bihash_16_8_t)
    (k : Nat × Nat) (hrv : (flow_update hash T k).2 ≠ 0) :
    (flow_update hash T k).1 = T := by
  unfold flow_update clib_bihash_add_del_16_8 clib_bihash_add_del_with_hash_16_8 at hrv ⊢
  simp only [] at hrv ⊢
  cases hs : bucket_search k (T.buckets (hash k % T.nbuckets)) with
  | some r => simp [hs] at hrv
  | none =>
    simp only [hs] at hrv ⊢
    by_cases hm : T.memory_used + kv_bytes ≤ T.memory_size
    · simp [hm] at hrv
    · simp only [hm, if_false]

theorem flow_update_present (hash : Nat × Nat → Nat) (T : clib_bihash_16_8_t)
    (k : Nat × Nat) (hp : lookup hash T k ≠ none) : (flow_update hash T k).2 = 0 := by
  unfold flow_update clib_bihash_add_del_16_8 clib_bihash_add_del_with_hash_16_8
  unfold lookup at hp
  simp only []
  cases hs : bucket_search k (T.buckets (hash k % T.nbuckets)) with
  | some r => rfl
  | none => simp [hs] at hp

/-- The per-packet update folded over the keys `K1, K2, K1, K3` from a table without
records. -/
theorem flow_scenario (hash : Nat × Nat → Nat) (T0 : clib_bihash_16_8_t)
    (K1 K2 K3 : Nat × Nat) (hempty : ∀ k, lookup hash T0 k = none)
    (h12 : K1 ≠ K2) (h13 : K1 ≠ K3) (h23 : K2 ≠ K3) :
    ∃ T n r1 r2 r3 r4,
      [K1, K2, K1, K3].foldl (flow_step hash) (T0, 0, []) = (T, n, [r1, r2, r3, r4]) ∧
      (r1 = 0 → r2 = 0 →
        n = 3 ∧ r3 = 0 ∧ lookup hash T K1 = some 2 ∧ lookup hash T K2 = some 1 ∧
        (r4 = 0 → lookup hash T K3 = some 1) ∧ (r4 ≠ 0 → lookup hash T K3 = none)) := by
  have hT1 : ∀ T1, T1 = (flow_update hash T0 K1).1 → (flow_update hash T0 K1).2 = 0 →
      ∀ k, lookup hash T1 k = if K1 = k then some 1 else none := by
    intro T1 hT1 hr k
    rw [hT1, flow_update_lookup hash T0 K1 hr k, hempty K1, hempty k]
    rfl
  have hT2 : ∀ T1 T2, (∀ k, lookup hash T1 k = if K1 = k then some 1 else none) →
      T2 = (flow_update hash T1 K2).1 → (flow_update hash T1 K2).2 = 0 →
      ∀ k, lookup hash T2 k = if K2 = k then some 1 else if K1 = k then some 1 else none := by
    intro T1 T2 h1 hT2 hr k
    rw [hT2, flow_update_lookup hash T1 K2 hr k, h1 K2, if_neg h12, h1 k]
    rfl
  have hT3 : ∀ T2 T3,
      (∀ k, lookup hash T2 k = if K2 = k then some 1 else if K1 = k then some 1 else none) →
      T3 = (flow_update hash T2 K1).1 →
      (flow_update hash T2 K1).2 = 0 ∧
      ∀ k, lookup hash T3 k
        = if K1 = k then some 2 else if K2 = k then some 1 else none := by
    intro T2 T3 h2 hT3
    have hl : lookup hash T2 K1 = some 1 := by
      rw [h2 K1, if_neg (Ne.symm h12), if_pos rfl]
    have hr : (flow_update hash T2 K1).2 = 0 :=
      flow_update_present hash T2 K1 (by rw [hl]; simp)
    refine ⟨hr, fun k => ?_⟩
    rw [hT3, flow_update_lookup hash T2 K1 hr k, hl, h2 k]
    by_cases hk : K1 = k
    · simp [hk, next_count]
    · simp [hk]
  refine ⟨(flow_update hash (flow_update hash (flow_update hash
      (flow_update hash T0 K1).1 K2).1 K1).1 K3).1,
    (if lookup hash (flow_update hash (flow_update hash
          (flow_update hash T0 K1).1 K2).1 K1).1 K3 = none then
      ((if lookup hash (flow_update hash (flow_update hash T0 K1).1 K2).1 K1 = none then
          ((if lookup hash (flow_update hash T0 K1).1 K2 = none then
              ((if lookup hash T0 K1 = none then (0 + 1) % 2 ^ 32 else 0) + 1) % 2 ^ 32
            else (if lookup hash T0 K1 = none then (0 + 1) % 2 ^ 32 else 0)) + 1) % 2 ^ 32
        else (if lookup hash (flow_update hash T0 K1).1 K2 = none then
              ((if lookup hash T0 K1 = none then (0 + 1) % 2 ^ 32 else 0) + 1) % 2 ^ 32
            else (if lookup hash T0 K1 = none then (0 + 1) % 2 ^ 32 else 0))) + 1) % 2 ^ 32
    else (if lookup hash (flow_update hash (flow_update hash T0 K1).1 K2).1 K1 = none then
          ((if lookup hash (flow_update hash T0 K1).1 K2 = none then
              ((if lookup hash T0 K1 = none then (0 + 1) % 2 ^ 32 else 0) + 1) % 2 ^ 32
            else (if lookup hash T0 K1 = none then (0 + 1) % 2 ^ 32 else 0)) + 1) % 2 ^ 32
        else (if lookup hash (flow_update hash T0 K1).1 K2 = none then
              ((if lookup hash T0 K1 = none then (0 + 1) % 2 ^ 32 else 0) + 1) % 2 ^ 32
            else (if lookup hash T0 K1 = none then (0 + 1) % 2 ^ 32 else 0)))),
    (flow_update hash T0 K1).2,
    (flow_update hash (flow_update hash T0 K1).1 K2).2,
    (flow_update hash (flow_update hash (flow_update hash T0 K1).1 K2).1 K1).2,
    (flow_update hash (flow_update hash (flow_update hash
      (flow_update hash T0 K1).1 K2).1 K1).1 K3).2, rfl, ?_⟩
  intro hr1 hr2
  have l1 := hT1 _ rfl hr1
  have l2 := hT2 _ _ l1 rfl hr2
  obtain ⟨hr3, l3⟩ := hT3 _ _ l2 rfl
  have m1 : lookup hash T0 K1 = none := hempty K1
  have m2 : lookup hash (flow_update hash T0 K1).1 K2 = none := by
    rw [l1 K2, if_neg h12]
  have m3 : lookup hash (flow_update hash (flow_update hash T0 K1).1 K2).1 K1 = some 1 := by
    rw [l2 K1, if_neg (Ne.symm h12), if_pos rfl]
  have m4 : lookup hash (flow_update hash (flow_update hash
      (flow_update hash T0 K1).1 K2).1 K1).1 K3 = none := by
    rw [l3 K3, if_neg h13, if_neg h23]
  refine ⟨?_, hr3, ?_, ?_, ?_, ?_⟩
  · rw [if_pos m4, if_neg (by rw [m3]; simp), if_pos m2, if_pos m1]
    norm_num
  · by_cases hr4 : (flow_update hash (flow_update hash (flow_update hash
        (flow_update hash T0 K1).1 K2).1 K1).1 K3).2 = 0
    · rw [flow_update_lookup hash _ K3 hr4 K1, if_neg (Ne.symm h13), l3 K1, if_pos rfl]
    · rw [flow_update_failed hash _ K3 hr4, l3 K1, if_pos rfl]
  · by_cases hr4 : (flow_update hash (flow_update hash (flow_update hash
        (flow_update hash T0 K1).1 K2).1 K1).1 K3).2 = 0
    · rw [flow_update_lookup hash _ K3 hr4 K2, if_neg (Ne.symm h23), l3 K2,
        if_neg h12, if_pos rfl]
    · rw [flow_update_failed hash _ K3 hr4, l3 K2, if_neg h12, if_pos rfl]
  · intro hr4
    rw [flow_update_lookup hash _ K3 hr4 K3, if_pos rfl, m4]
    rfl
  · intro hr4
    rw [flow_update_failed hash _ K3 hr4]
    exact m4

/-- C12, as amended.  A batch of four packets with FlowKeys `K1, K2, K1, K3`, pairwise
distinct, on a table without records, run by `flowcounter_node` (table of `per_cpu[0]`) or
by `ratelimiter_node` (table of `per_cpu[thread_index]`).  The node returns `4` with the
four handles output in input order and four insertion results `r1, r2, r3, r4`.  If the
insertions of `K1` and `K2` succeeded (`r1 = 0`, `r2 = 0`), then `K1` is stored with count
2 and `K2` with count 1, the update of `K1` succeeded, and `pkts_inserted` is 3 whether the
insertion of `K3` succeeded or failed: the counter goes up when the lookup misses, before
the insertion, whose result is discarded.  `K3` is stored with count 1 if its insertion
succeeded and is absent if it failed. -/
theorem capacity_scenario (e : node_env) (fuel : Nat) (per_cpu : List fc_per_cpu_t)
    (buffers : Nat → vlib_buffer_t) (pc0 pcT : fc_per_cpu_t) (b1 b2 b3 b4 : Nat)
    (K1 K2 K3 : Nat × Nat) (hframe : e.frame = [b1, b2, b3, b4])
    (hk1 : flow_key (buffers b1) = K1) (hk2 : flow_key (buffers b2) = K2)
    (hk3 : flow_key (buffers b3) = K1) (hk4 : flow_key (buffers b4) = K3)
    (h12 : K1 ≠ K2) (h13 : K1 ≠ K3) (h23 : K2 ≠ K3)
    (hroom : ∀ k, 0 < e.room k) (hfuel : 4 ≤ fuel)
    (h0 : per_cpu[0]? = some pc0) (hT : per_cpu[e.thread_index]? = some pcT)
    (hempty0 : ∀ k, lookup e.hash pc0.hash_table k = none)
    (hemptyT : ∀ k, lookup e.hash pcT.hash_table k = none) :
    (∃ s, ∃ pc : fc_per_cpu_t, ∃ r1 r2 r3 r4,
      flowcounter_node e fuel per_cpu buffers = .ok (s, 4) ∧
      s.to_next = [b1, b2, b3, b4] ∧ s.per_cpu[0]? = some pc ∧
      s.add_del_rv = [r1, r2, r3, r4] ∧
      (r1 = 0 → r2 = 0 →
        s.pkts_inserted = 3 ∧ r3 = 0 ∧
        lookup e.hash pc.hash_table K1 = some 2 ∧ lookup e.hash pc.hash_table K2 = some 1 ∧
        (r4 = 0 → lookup e.hash pc.hash_table K3 = some 1) ∧
        (r4 ≠ 0 → lookup e.hash pc.hash_table K3 = none))) ∧
    (∃ s, ∃ pc : fc_per_cpu_t, ∃ r1 r2 r3 r4,
      ratelimiter_node e fuel per_cpu buffers = .ok (s, 4) ∧
      s.to_next = [b1, b2, b3, b4] ∧ s.per_cpu[e.thread_index]? = some pc ∧
      s.add_del_rv = [r1, r2, r3, r4] ∧
      (r1 = 0 → r2 = 0 →
        s.pkts_inserted = 3 ∧ r3 = 0 ∧
        lookup e.hash pc.hash_table K1 = some 2 ∧ lookup e.hash pc.hash_table K2 = some 1 ∧
        (r4 = 0 → lookup e.hash pc.hash_table K3 = some 1) ∧
        (r4 ≠ 0 → lookup e.hash pc.hash_table K3 = none))) := by
  have hlen : e.frame.length = 4 := by rw [hframe]; rfl
  have hkeys : batch_keys buffers e.frame = [K1, K2, K1, K3] := by
    rw [hframe]
    simp [batch_keys, hk1, hk2, hk3, hk4]
  obtain ⟨hfc, hrl⟩ := single_loop_run e fuel per_cpu buffers pc0 pcT hroom
    (by omega) h0 hT
  constructor
  · obtain ⟨s, pc, hrun, hto, hpc, hfold⟩ := hfc
    obtain ⟨T, n, r1, r2, r3, r4, hsc, himp⟩ :=
      flow_scenario e.hash pc0.hash_table K1 K2 K3 hempty0 h12 h13 h23
    rw [hkeys, hsc] at hfold
    simp only [Prod.mk.injEq] at hfold
    obtain ⟨f1, f2, f3⟩ := hfold
    rw [hlen] at hrun
    rw [hframe] at hto
    refine ⟨s, pc, r1, r2, r3, r4, hrun, hto, hpc, f3, ?_⟩
    rw [f1, f2]
    exact himp
  · obtain ⟨s, pc, hrun, hto, hpc, hfold⟩ := hrl (by omega)
    obtain ⟨T, n, r1, r2, r3, r4, hsc, himp⟩ :=
      flow_scenario e.hash pcT.hash_table K1 K2 K3 hemptyT h12 h13 h23
    rw [hkeys, hsc] at hfold
    simp only [Prod.mk.injEq] at hfold
    obtain ⟨f1, f2, f3⟩ := hfold
    rw [hlen] at hrun
    rw [hframe] at hto
    refine ⟨s, pc, r1, r2, r3, r4, hrun, hto, hpc, f3, ?_⟩
    rw [f1, f2]
    exact himp

theorem capacity_scenario_witness :
    (plain_env 0 [0, 1, 3, 2]).frame = [0, 1, 3, 2] ∧
    flow_key (three_flow_pool 0) ≠ flow_key (three_flow_pool 1) ∧
    flow_key (three_flow_pool 0) ≠ flow_key (three_flow_pool 2) ∧
    flow_key (three_flow_pool 1) ≠ flow_key (three_flow_pool 2) ∧
    flow_key (three_flow_pool 3) = flow_key (three_flow_pool 0) ∧
    (∀ k, 0 < (plain_env 0 [0, 1, 3, 2]).room k) ∧
    two_tight_cores[0]? = some ⟨empty_table 4 48⟩ ∧
    (∀ k, lookup sum_hash (empty_table 4 48) k = none) ∧
    ∃ s, ∃ pc : fc_per_cpu_t,
      flowcounter_node (plain_env 0 [0, 1, 3, 2]) 4 two_tight_cores three_flow_pool
        = .ok (s, 4) ∧
      s.to_next = [0, 1, 3, 2] ∧ s.per_cpu[0]? = some pc ∧
      s.add_del_rv = [0, 0, 0, -1] ∧ s.pkts_inserted = 3 ∧
      lookup sum_hash pc.hash_table (flow_key (three_flow_pool 0)) = some 2 ∧
      lookup sum_hash pc.hash_table (flow_key (three_flow_pool 1)) = some 1 ∧
      lookup sum_hash pc.hash_table (flow_key (three_flow_pool 2)) = none := by
  refine ⟨rfl, by decide, by decide, by decide, by decide,
    fun _ => (by decide : 0 < 256), rfl, fun _ => rfl, ?_⟩
  obtain ⟨⟨s, pc, r1, r2, r3, r4, hrun, hto, hpc, hrv, himp⟩, _⟩ :=
    capacity_scenario (plain_env 0 [0, 1, 3, 2]) 4 two_tight_cores three_flow_pool
      ⟨empty_table 4 48⟩ ⟨empty_table 4 48⟩ 0 1 3 2
      (flow_key (three_flow_pool 0)) (flow_key (three_flow_pool 1))
      (flow_key (three_flow_pool 2)) rfl rfl rfl (by decide) rfl
      (by decide) (by decide) (by decide) (fun _ => (by decide : 0 < 256)) (by decide)
      rfl rfl (fun _ => rfl) (fun _ => rfl)
  have hlog : (match flowcounter_node (plain_env 0 [0, 1, 3, 2]) 4 two_tight_cores
        three_flow_pool with
      | .ok (s, _) => s.add_del_rv
      | .error _ => []) = [0, 0, 0, -1] := by decide
  rw [hrun] at hlog
  simp only [] at hlog
  rw [hrv] at hlog
  simp only [List.cons.injEq, and_true] at hlog
  obtain ⟨q1, q2, q3, q4⟩ := hlog
  obtain ⟨i1, _, i3, i4, _, i6⟩ := himp q1 q2
  refine ⟨s, pc, hrun, hto, hpc, ?_, i1, i3, i4, i6 (by rw [q4]; decide)⟩
  rw [hrv, q1, q2, q3, q4]

/-- C12, the claim as stated fails: `flowcounter_node` run over four packets with keys
`K1, K2, K1, K3` on an empty table with budget for two records.  The insertions of `K1`
and `K2` succeed, that of `K3` fails (`-1`) and `K3` stays absent, and `pkts_inserted` is
3, not 2: the failed insertion is counted as a new flow. -/
theorem failed_insertion_is_counted :
    ∃ s pc, flowcounter_node (plain_env 0 [0, 1, 3, 2]) 4 two_tight_cores three_flow_pool
        = .ok (s, 4) ∧
      s.per_cpu[0]? = some pc ∧
      batch_keys three_flow_pool [0, 1, 3, 2]
        = [(2, 196612), (4294967298, 196612), (2, 196612), (8589934594, 196612)] ∧
      s.to_next = [0, 1, 3, 2] ∧ s.add_del_rv = [0, 0, 0, -1] ∧
      lookup sum_hash pc.hash_table (2, 196612) = some 2 ∧
      lookup sum_hash pc.hash_table (4294967298, 196612) = some 1 ∧
      lookup sum_hash pc.hash_table (8589934594, 196612) = none ∧
      s.pkts_inserted = 3 ∧ s.pkts_inserted ≠ 2 :=
  ⟨_, _, rfl, rfl, by decide, by decide, by decide, by decide, by decide, by decide,
    by decide, by decide⟩

end CustomVpp
